import Mathlib

/-!
Verification of the job-orchestration subsystem of `src/api.py` (chess-analysis
job API).  The Python source is shallowly embedded: job records are
association lists from field names to Python values, the file-based job store
is an association list from file paths to serialized records, and the
asynchronous dispatcher (`process_job`, the endpoints, and the process pool)
is a labelled transition system whose transitions invoke the embedded store
functions exactly as the source does.

Python's `datetime.isoformat` / `datetime.fromisoformat` (the only stdlib
functions whose behaviour the spec depends on) are modelled concretely:
`isoformat` produces the `YYYY-MM-DDTHH:MM:SS[.ffffff]` string and
`fromisoformat` parses it back, validating calendar ranges the way the
`datetime` constructor does.
-/

namespace Charlie

/-- The `JobStatus` enum of `api.py` (a `str`-valued enum; its JSON form is the
lower-case string). -/
inductive JobStatus where
  | pending
  | processing
  | completed
  | failed
deriving DecidableEq

/-- The string value of a `JobStatus` member (`JobStatus.PENDING = "pending"`,
etc.); this is what json serialization writes, since the enum derives `str`. -/
def statusStr : JobStatus → String
  | .pending => "pending"
  | .processing => "processing"
  | .completed => "completed"
  | .failed => "failed"

/-- Naive `datetime.datetime` value (no timezone, as produced by
`datetime.now()` in the source). -/
structure DT where
  year : Nat
  month : Nat
  day : Nat
  hour : Nat
  minute : Nat
  second : Nat
  microsecond : Nat
deriving DecidableEq

/-- Leap-year test of the Gregorian calendar (`calendar.isleap`). -/
def isLeap (y : Nat) : Bool :=
  y % 4 == 0 && (y % 100 != 0 || y % 400 == 0)

/-- Days in a month, as validated by the `datetime` constructor. -/
def daysInMonth (y m : Nat) : Nat :=
  if m = 2 then (if isLeap y then 29 else 28)
  else if m = 4 ∨ m = 6 ∨ m = 9 ∨ m = 11 then 30
  else 31

/-- The field ranges every Python `datetime` object satisfies (enforced by the
`datetime` constructor, hence by `datetime.now()` and `fromisoformat`). -/
def DT.Valid (d : DT) : Prop :=
  1 ≤ d.year ∧ d.year ≤ 9999 ∧ 1 ≤ d.month ∧ d.month ≤ 12 ∧
  1 ≤ d.day ∧ d.day ≤ daysInMonth d.year d.month ∧
  d.hour ≤ 23 ∧ d.minute ≤ 59 ∧ d.second ≤ 59 ∧ d.microsecond ≤ 999999

instance (d : DT) : Decidable d.Valid := by
  unfold DT.Valid; infer_instance

/-- Fixed-width, zero-padded decimal digits of `n` (most significant first),
as produced by `%04d`-style formatting inside `datetime.isoformat`. -/
def padDigits : Nat → Nat → List Char
  | 0, _ => []
  | w + 1, n => Char.ofNat (48 + n / 10 ^ w % 10) :: padDigits w (n % 10 ^ w)

/-- Read exactly `w` decimal digits, folding them onto the accumulator
(`fromisoformat`'s fixed-width field scan). -/
def readFixed : Nat → Nat → List Char → Option (Nat × List Char)
  | 0, acc, cs => some (acc, cs)
  | _ + 1, _, [] => none
  | w + 1, acc, c :: cs =>
      if c.isDigit then readFixed w (acc * 10 + (c.toNat - 48)) cs else none

/-- Consume one expected separator character. -/
def expectCh (c : Char) : List Char → Option (List Char)
  | [] => none
  | c' :: cs => if c' = c then some cs else none

/-- Character list of `datetime.isoformat()`: `YYYY-MM-DDTHH:MM:SS`, followed
by `.ffffff` exactly when `microsecond` is nonzero. -/
def isoChars (d : DT) : List Char :=
  padDigits 4 d.year ++ '-' :: padDigits 2 d.month ++ '-' :: padDigits 2 d.day ++
  'T' :: padDigits 2 d.hour ++ ':' :: padDigits 2 d.minute ++ ':' :: padDigits 2 d.second ++
  (if d.microsecond = 0 then [] else '.' :: padDigits 6 d.microsecond)

/-- Python's `datetime.isoformat()`. -/
def isoformat (d : DT) : String :=
  String.mk (isoChars d)

/-- Parser core of `datetime.fromisoformat` on the formats `isoformat`
emits, including the constructor's range validation. -/
def parseIso (cs : List Char) : Option DT := do
  let (y, cs) ← readFixed 4 0 cs
  let cs ← expectCh '-' cs
  let (mo, cs) ← readFixed 2 0 cs
  let cs ← expectCh '-' cs
  let (dy, cs) ← readFixed 2 0 cs
  let cs ← expectCh 'T' cs
  let (h, cs) ← readFixed 2 0 cs
  let cs ← expectCh ':' cs
  let (mi, cs) ← readFixed 2 0 cs
  let cs ← expectCh ':' cs
  let (sec, cs) ← readFixed 2 0 cs
  let (us, cs) ←
    match cs with
    | [] => some (0, ([] : List Char))
    | '.' :: cs => readFixed 6 0 cs
    | _ => none
  match cs with
  | [] =>
      let d : DT := ⟨y, mo, dy, h, mi, sec, us⟩
      if d.Valid then some d else none
  | _ => none

/-- Python's `datetime.fromisoformat` (returns `none` where Python raises
`ValueError`). -/
def fromisoformat (s : String) : Option DT :=
  parseIso s.data

/-! ### Round-trip of the datetime codec -/

lemma digitChar_props (d : Nat) (h : d < 10) :
    (Char.ofNat (48 + d)).isDigit = true ∧ (Char.ofNat (48 + d)).toNat - 48 = d := by
  interval_cases d <;> exact ⟨by decide, by decide⟩

lemma readFixed_padDigits (w : Nat) :
    ∀ (acc n : Nat) (rest : List Char),
      readFixed w acc (padDigits w n ++ rest) = some (acc * 10 ^ w + n % 10 ^ w, rest) := by
  induction w with
  | zero => intro acc n rest; simp [readFixed, padDigits, Nat.mod_one]
  | succ w ih =>
      intro acc n rest
      have hd : n / 10 ^ w % 10 < 10 := Nat.mod_lt _ (by norm_num)
      obtain ⟨hdig, hval⟩ := digitChar_props _ hd
      simp only [padDigits, List.cons_append, readFixed, hdig, if_true, hval,
        List.append_eq, ih]
      have key : (acc * 10 + n / 10 ^ w % 10) * 10 ^ w + n % 10 ^ w % 10 ^ w
          = acc * 10 ^ (w + 1) + n % 10 ^ (w + 1) := by
        rw [Nat.mod_mod_of_dvd _ (dvd_refl _), pow_succ, Nat.mod_mul]; ring
      rw [key]

lemma readFixed_pad_of_lt {w n : Nat} (hn : n < 10 ^ w) (rest : List Char) :
    readFixed w 0 (padDigits w n ++ rest) = some (n, rest) := by
  rw [readFixed_padDigits, Nat.zero_mul, Nat.zero_add, Nat.mod_eq_of_lt hn]

lemma readFixed_pad_nil {w n : Nat} (hn : n < 10 ^ w) :
    readFixed w 0 (padDigits w n) = some (n, []) := by
  have := readFixed_pad_of_lt hn []
  rwa [List.append_nil] at this

lemma expectCh_cons_self (c : Char) (cs : List Char) :
    expectCh c (c :: cs) = some cs := by
  simp [expectCh]

lemma daysInMonth_le (y m : Nat) : daysInMonth y m ≤ 31 := by
  unfold daysInMonth
  split_ifs <;> simp

set_option maxHeartbeats 1000000 in
/-- Parsing inverts printing: `fromisoformat` recovers every value a Python
`datetime` object can take. -/
theorem fromisoformat_isoformat (d : DT) (hv : d.Valid) :
    fromisoformat (isoformat d) = some d := by
  obtain ⟨y, mo, dy, h, mi, sec, us⟩ := d
  unfold DT.Valid at hv
  dsimp only at hv
  obtain ⟨h1, h2, h3, h4, h5, h6, h7, h8, h9, h10⟩ := hv
  have hy : y < 10 ^ 4 := by norm_num; omega
  have hmo : mo < 10 ^ 2 := by norm_num; omega
  have hdy : dy < 10 ^ 2 := by
    have := daysInMonth_le y mo
    norm_num; omega
  have hh : h < 10 ^ 2 := by norm_num; omega
  have hmi : mi < 10 ^ 2 := by norm_num; omega
  have hsec : sec < 10 ^ 2 := by norm_num; omega
  have hus : us < 10 ^ 6 := by norm_num; omega
  have hvalid : DT.Valid ⟨y, mo, dy, h, mi, sec, us⟩ :=
    ⟨h1, h2, h3, h4, h5, h6, h7, h8, h9, h10⟩
  unfold fromisoformat isoformat parseIso isoChars
  simp only [List.append_assoc, List.cons_append, Option.bind_eq_bind]
  by_cases hzero : us = 0
  · rw [if_pos hzero,
      readFixed_pad_of_lt hy, Option.some_bind, expectCh_cons_self, Option.some_bind,
      readFixed_pad_of_lt hmo, Option.some_bind, expectCh_cons_self, Option.some_bind,
      readFixed_pad_of_lt hdy, Option.some_bind, expectCh_cons_self, Option.some_bind,
      readFixed_pad_of_lt hh, Option.some_bind, expectCh_cons_self, Option.some_bind,
      readFixed_pad_of_lt hmi, Option.some_bind, expectCh_cons_self, Option.some_bind,
      readFixed_pad_of_lt hsec, Option.some_bind]
    subst hzero
    simp [hvalid]
  · rw [if_neg hzero,
      readFixed_pad_of_lt hy, Option.some_bind, expectCh_cons_self, Option.some_bind,
      readFixed_pad_of_lt hmo, Option.some_bind, expectCh_cons_self, Option.some_bind,
      readFixed_pad_of_lt hdy, Option.some_bind, expectCh_cons_self, Option.some_bind,
      readFixed_pad_of_lt hh, Option.some_bind, expectCh_cons_self, Option.some_bind,
      readFixed_pad_of_lt hmi, Option.some_bind, expectCh_cons_self, Option.some_bind,
      readFixed_pad_of_lt hsec, Option.some_bind]
    simp only [Option.some_bind]
    rw [readFixed_pad_nil hus]
    simp [hvalid]

/-- The function `isoformat` never produces the empty string (so the stored timestamp is
always truthy in Python). -/
theorem isoformat_ne_empty (d : DT) : isoformat d ≠ "" := by
  unfold isoformat isoChars padDigits
  intro h
  have := congrArg String.data h
  simp at this

/-! ### Python values and dictionaries -/

/-- The values that occur in a job dictionary: strings, numbers (ints and the
float `processing_time`, modelled as rationals), `datetime` objects, `None`,
and the opaque JSON-serializable `results` payload produced by the external
`analyze_games` work function (modelled as an abstract token, since the spec
treats the work function as opaque). -/
inductive PyVal where
  | pstr (s : String)
  | pnum (q : ℚ)
  | pdt (d : DT)
  | pjson (t : Nat)
  | pnone
deriving DecidableEq

/-- Python truthiness of the values above (`if key in data and data[key]:`). -/
def truthy : PyVal → Bool
  | .pstr s => s ≠ ""
  | .pnum q => q ≠ 0
  | .pdt _ => true
  | .pjson _ => true
  | .pnone => false

/-- Whether a value is a `datetime` object. -/
def isPdt : PyVal → Bool
  | .pdt _ => true
  | _ => false

/-- The per-value conversion done by `save_job`: datetime objects become
their ISO-format strings, everything else is passed through to `json.dump`
unchanged. -/
def serializeVal : PyVal → PyVal
  | .pdt d => .pstr (isoformat d)
  | v => v

lemma isPdt_serializeVal (v : PyVal) : isPdt (serializeVal v) = false := by
  cases v <;> rfl

lemma serializeVal_of_not_pdt {v : PyVal} (h : isPdt v = false) :
    serializeVal v = v := by
  cases v <;> simp_all [serializeVal, isPdt]

/-! ### String-keyed association lists (Python `dict` / the jobs directory)

Python dictionaries preserve insertion order; assignment to an existing key
replaces the value in place, assignment to a fresh key appends.  The same
structure models the `data/jobs` directory (a map from file name to file
content). -/

/-- Look up the value stored at key `k`. -/
def getv {α : Type} : List (String × α) → String → Option α
  | [], _ => none
  | (k', v) :: rest, k => if k' = k then some v else getv rest k

/-- Python `d[k] = v`: replace in place if present, append otherwise. -/
def setv {α : Type} : List (String × α) → String → α → List (String × α)
  | [], k, v => [(k, v)]
  | (k', v') :: rest, k, v =>
      if k' = k then (k, v) :: rest else (k', v') :: setv rest k v

/-- Removal of a key (`Path.unlink` on the jobs directory): afterwards no
entry with that name exists. -/
def delv {α : Type} (l : List (String × α)) (k : String) : List (String × α) :=
  l.filter (fun kv => ¬kv.1 = k)

section AssocLemmas

variable {α : Type} (l : List (String × α)) (k k' : String) (v : α)

@[simp] lemma getv_setv_self : getv (setv l k v) k = some v := by
  induction l with
  | nil => simp [getv, setv]
  | cons p rest ih =>
      obtain ⟨k0, v0⟩ := p
      simp only [setv]
      by_cases h : k0 = k
      · rw [if_pos h]
        simp [getv]
      · rw [if_neg h]
        simp [getv, h, ih]

lemma getv_setv_ne (h : k' ≠ k) : getv (setv l k v) k' = getv l k' := by
  induction l with
  | nil => simp [getv, setv, Ne.symm h]
  | cons p rest ih =>
      obtain ⟨k0, v0⟩ := p
      simp only [setv]
      by_cases h0 : k0 = k
      · subst h0
        simp [getv, Ne.symm h]
      · simp only [if_neg h0, getv]
        by_cases h1 : k0 = k' <;> simp [h1, ih]

@[simp] lemma getv_delv_self : getv (delv l k) k = none := by
  induction l with
  | nil => simp [getv, delv]
  | cons p rest ih =>
      obtain ⟨k0, v0⟩ := p
      by_cases h : k0 = k
      · simp [delv, List.filter_cons, h] at *
        exact ih
      · simp [delv, List.filter_cons, h, getv] at *
        exact ih

lemma getv_delv_ne (h : k' ≠ k) : getv (delv l k) k' = getv l k' := by
  induction l with
  | nil => simp [getv, delv]
  | cons p rest ih =>
      obtain ⟨k0, v0⟩ := p
      by_cases h0 : k0 = k
      · subst h0
        simp [delv, List.filter_cons, getv, Ne.symm h] at *
        exact ih
      · by_cases h1 : k0 = k'
        · subst h1
          simp [delv, List.filter_cons, getv, h0] at *
        · simp [delv, List.filter_cons, getv, h0, h1] at *
          exact ih

lemma getv_map {β : Type} (f : α → β) :
    getv (l.map (fun kv => (kv.1, f kv.2))) k = (getv l k).map f := by
  induction l with
  | nil => simp [getv]
  | cons p rest ih =>
      obtain ⟨k0, v0⟩ := p
      by_cases h : k0 = k <;> simp [getv, h, ih]

lemma getv_append (l' : List (String × α)) :
    getv (l ++ l') k = (getv l k).elim (getv l' k) some := by
  induction l with
  | nil => simp [getv]
  | cons p rest ih =>
      obtain ⟨k0, v0⟩ := p
      by_cases h : k0 = k <;> simp [getv, h, ih]

end AssocLemmas

/-! ### The job record store (`api.py` lines 79–145) -/

/-- A job dictionary (`Dict[str, Any]` in the source). -/
abbrev Dict := List (String × PyVal)

/-- The file-based job storage: the `data/jobs` directory, mapping file names
to the (already json-serialized) dictionaries they contain. -/
abbrev FS := List (String × Dict)

/-- Python's `get_job_file_path(job_id)`: `jobs_dir / f"{job_id}.json"` (the constant
directory prefix is dropped; the varying part of the path is kept). -/
def get_job_file_path (job_id : String) : String :=
  job_id ++ ".json"

/-- The value-serialization loop of `save_job`: datetime values become
ISO-format strings, others pass through. -/
def serializeDict (job_data : Dict) : Dict :=
  job_data.map (fun kv => (kv.1, serializeVal kv.2))

/-- Python's `save_job(job_id, job_data)`: serialize and write the file. -/
def save_job (fs : FS) (job_id : String) (job_data : Dict) : FS :=
  setv fs (get_job_file_path job_id) (serializeDict job_data)

/-- The keys `load_job` converts back to datetime objects. -/
def datetimeKeys : List String :=
  ["created_at", "updated_at", "completed_at"]

/-- One iteration of `load_job`'s conversion loop:
`if key in data and data[key]: data[key] = datetime.fromisoformat(data[key])`.
A `ValueError`/`TypeError` raised by `fromisoformat` is `Except.error`. -/
def convertKey (data : Dict) (key : String) : Except Unit Dict :=
  match getv data key with
  | none => .ok data
  | some v =>
      if truthy v then
        match v with
        | .pstr s =>
            match fromisoformat s with
            | some d => .ok (setv data key (.pdt d))
            | none => .error ()
        | _ => .error ()
      else .ok data

/-- Python's `load_job(job_id)`: `none` when the file does not exist; otherwise the
parsed dictionary with the three timestamp keys converted back. -/
def load_job (fs : FS) (job_id : String) : Except Unit (Option Dict) :=
  match getv fs (get_job_file_path job_id) with
  | none => .ok none
  | some data => do
      let data ← datetimeKeys.foldlM convertKey data
      return some data

/-- Python's `update_job_status(job_id, status, message, **kwargs)` at instant `now`:
read-modify-write; a missing record logs an error and returns, leaving the
store untouched. -/
def update_job_status (fs : FS) (now : DT) (job_id : String) (status : JobStatus)
    (message : String) (kwargs : List (String × PyVal)) : Except Unit FS :=
  match load_job fs job_id with
  | .error e => .error e
  | .ok none => .ok fs
  | .ok (some job_data) =>
      let d := setv job_data "status" (.pstr (statusStr status))
      let d := setv d "message" (.pstr message)
      let d := setv d "updated_at" (.pdt now)
      let d := kwargs.foldl (fun acc kv => setv acc kv.1 kv.2) d
      .ok (save_job fs job_id d)

/-- Python's `delete_job_file(job_id)`: unlink if present, reporting whether a file
was removed. -/
def delete_job_file (fs : FS) (job_id : String) : FS × Bool :=
  if (getv fs (get_job_file_path job_id)).isSome then
    (delv fs (get_job_file_path job_id), true)
  else (fs, false)

/-- Python's `list_all_jobs()` loads every record in the directory (read-only; shown
for completeness of the query surface). -/
def list_all_jobs (fs : FS) : List (Except Unit (Option Dict)) :=
  fs.map (fun kv => load_job fs (kv.1.dropRight 5))

/-- Outcome of the `DELETE /jobs/{job_id}` endpoint. -/
inductive DelResult where
  | deleted
  | notFound
  | serverError
deriving DecidableEq

/-- The cleanup of the staged temporary PGN file inside `delete_job`:
`if pgn_file_path and os.path.exists(pgn_file_path): os.unlink(...)`. -/
def tmpAfterDelete (job_data : Dict) (tmp : List String) : List String :=
  match getv job_data "pgn_file_path" with
  | some (.pstr p) => if p ≠ "" ∧ p ∈ tmp then tmp.erase p else tmp
  | _ => tmp

/-- The `delete_job` endpoint (lines 349–374): load the record (404 when
missing), best-effort unlink of the staged temporary PGN file, then remove
the job file.  `tmp` is the set of existing temporary files. -/
def delete_job (fs : FS) (tmp : List String) (job_id : String) :
    Except Unit (FS × List String × DelResult) :=
  match load_job fs job_id with
  | .error e => .error e
  | .ok none => .ok (fs, tmp, .notFound)
  | .ok (some job_data) =>
      let tmp' := tmpAfterDelete job_data tmp
      match delete_job_file fs job_id with
      | (fs', true) => .ok (fs', tmp', .deleted)
      | (fs', false) => .ok (fs', tmp', .serverError)

/-! ### The dispatcher's constants (`process_job` and `submit_job`) -/

/-- Days in the proleptic Gregorian calendar before January 1 of year `y`
(`datetime.date.toordinal`-style count). -/
def daysBeforeYear (y : Nat) : Nat :=
  365 * (y - 1) + (y - 1) / 4 - (y - 1) / 100 + (y - 1) / 400

/-- Days before the first of month `m` in year `y`. -/
def daysBeforeMonth (y m : Nat) : Nat :=
  let base :=
    match m with
    | 1 => 0 | 2 => 31 | 3 => 59 | 4 => 90 | 5 => 120 | 6 => 151
    | 7 => 181 | 8 => 212 | 9 => 243 | 10 => 273 | 11 => 304 | _ => 334
  if 3 ≤ m ∧ isLeap y then base + 1 else base

/-- Microseconds of a naive datetime since the epoch of `toordinal`
(used to give meaning to `timedelta.total_seconds`). -/
def toMicros (d : DT) : ℤ :=
  (((daysBeforeYear d.year + daysBeforeMonth d.year d.month + d.day) * 86400 +
    d.hour * 3600 + d.minute * 60 + d.second) * 1000000 + d.microsecond : Nat)

/-- Python's `(b - a).total_seconds()` for datetimes `a`, `b`: the signed wall-clock
duration in seconds (a float in Python, a rational here). -/
def totalSeconds (a b : DT) : ℚ :=
  ((toMicros b - toMicros a : ℤ) : ℚ) / 1000000

/-- The record created by `submit_job` (lines 283–290). -/
def initialDict (job_id : String) (created_at : DT) (tmp_file_path : String) : Dict :=
  [("job_id", .pstr job_id),
   ("status", .pstr (statusStr .pending)),
   ("message", .pstr "Job submitted successfully"),
   ("created_at", .pdt created_at),
   ("updated_at", .pdt created_at),
   ("pgn_file_path", .pstr tmp_file_path)]

/-- The timeout error message of `process_job` (line 243):
`f"Analysis timed out after {timeout_seconds} seconds"`. -/
def timeoutMsg (timeout_seconds : Nat) : String :=
  "Analysis timed out after " ++ toString timeout_seconds ++ " seconds"

/-! ### Canonically stored dictionaries

Every dictionary the system ever writes is the output of `save_job`: no
datetime objects remain, and the three timestamp keys hold exact
`isoformat` output.  `storedOKb` is the (decidable) statement of that
shape. -/

/-- Whether `s` is the exact `isoformat` output of some datetime. -/
def canonIso (s : String) : Bool :=
  match fromisoformat s with
  | some d => isoformat d = s
  | none => false

/-- Value admissible at a timestamp key of a stored record. -/
def canonVal : PyVal → Bool
  | .pstr s => canonIso s
  | _ => false

/-- A dictionary as written by `save_job` in any reachable state: no raw
datetime values, timestamp keys canonical. -/
def storedOKb (D : Dict) : Bool :=
  D.all (fun kv => !isPdt kv.2) &&
  datetimeKeys.all (fun k =>
    match getv D k with
    | none => true
    | some v => canonVal v)

def StoredOK (D : Dict) : Prop := storedOKb D = true

instance (D : Dict) : Decidable (StoredOK D) := by
  unfold StoredOK; infer_instance

lemma getv_mem {α : Type} {l : List (String × α)} {k : String} {v : α}
    (h : getv l k = some v) : (k, v) ∈ l := by
  induction l with
  | nil => simp [getv] at h
  | cons p rest ih =>
      obtain ⟨k0, v0⟩ := p
      by_cases h0 : k0 = k
      · subst h0
        simp only [getv, eq_self_iff_true, if_true, Option.some.injEq] at h
        subst h
        exact List.mem_cons_self _ _
      · simp only [getv, if_neg h0] at h
        exact List.mem_cons_of_mem _ (ih h)

lemma storedOK_no_pdt {D : Dict} (hok : StoredOK D) {k : String} {v : PyVal}
    (h : getv D k = some v) : isPdt v = false := by
  unfold StoredOK storedOKb at hok
  simp only [Bool.and_eq_true, List.all_eq_true] at hok
  have := hok.1 _ (getv_mem h)
  simpa using this

/-- Canonicity of a stored dictionary at one timestamp key, in the form the
conversion loop needs. -/
def CanonAt (D : Dict) (k : String) : Prop :=
  getv D k = none ∨
  ∃ d : DT, getv D k = some (.pstr (isoformat d)) ∧ fromisoformat (isoformat d) = some d

lemma storedOK_canonAt {D : Dict} (hok : StoredOK D) {k : String}
    (hk : k ∈ datetimeKeys) : CanonAt D k := by
  unfold StoredOK storedOKb at hok
  simp only [Bool.and_eq_true, List.all_eq_true] at hok
  have := hok.2 k hk
  revert this
  cases hD : getv D k with
  | none => intro _; exact Or.inl hD
  | some v =>
      intro hc
      cases v with
      | pstr s =>
          right
          simp only [canonVal, canonIso] at hc
          revert hc
          cases hp : fromisoformat s with
          | none => intro hc; exact absurd hc (by simp)
          | some d =>
              intro hc
              rw [decide_eq_true_eq] at hc
              subst hc
              exact ⟨d, hD, hp⟩
      | pnum q => simp [canonVal] at hc
      | pdt d => simp [canonVal] at hc
      | pjson t => simp [canonVal] at hc
      | pnone => simp [canonVal] at hc

lemma convertKey_of_none {D : Dict} {k : String} (h : getv D k = none) :
    convertKey D k = .ok D := by
  simp [convertKey, h]

lemma convertKey_of_canon {D : Dict} {k : String} {d : DT}
    (h : getv D k = some (.pstr (isoformat d)))
    (hp : fromisoformat (isoformat d) = some d) :
    convertKey D k = .ok (setv D k (.pdt d)) := by
  have hne : isoformat d ≠ "" := isoformat_ne_empty d
  simp [convertKey, h, truthy, hne, hp]

/-- Effect of the conversion loop of `load_job` over a duplicate-free list of
keys at which the dictionary is canonical: it succeeds, turning exactly the
present keys of the list into datetime objects and touching nothing else. -/
lemma foldlM_convertKey_char :
    ∀ (ks : List String), ks.Nodup → ∀ (D : Dict), (∀ k ∈ ks, CanonAt D k) →
      ∃ D', ks.foldlM convertKey D = .ok D' ∧
        (∀ k, k ∉ ks → getv D' k = getv D k) ∧
        (∀ k, k ∈ ks →
          (getv D k = none ∧ getv D' k = none) ∨
          ∃ d, getv D k = some (.pstr (isoformat d)) ∧ getv D' k = some (.pdt d) ∧
            fromisoformat (isoformat d) = some d) := by
  intro ks
  induction ks with
  | nil =>
      intro _ D _
      exact ⟨D, rfl, fun _ _ => rfl, fun k hk => absurd hk (List.not_mem_nil k)⟩
  | cons k0 ks ih =>
      intro hnd D hc
      have hk0 : k0 ∉ ks := (List.nodup_cons.mp hnd).1
      have hnd' : ks.Nodup := (List.nodup_cons.mp hnd).2
      rcases hc k0 (List.mem_cons_self _ _) with hnone | ⟨d, hd, hp⟩
      · -- key absent: this iteration is a no-op
        obtain ⟨D', heq, huntouched, hmem⟩ :=
          ih hnd' D (fun k hk => hc k (List.mem_cons_of_mem _ hk))
        refine ⟨D', ?_, ?_, ?_⟩
        · rw [List.foldlM_cons, convertKey_of_none hnone]
          simpa using heq
        · intro k hk
          exact huntouched k (fun h => hk (List.mem_cons_of_mem _ h))
        · intro k hk
          rcases List.mem_cons.mp hk with rfl | hk
          · exact Or.inl ⟨hnone, by rw [huntouched k hk0]; exact hnone⟩
          · exact hmem k hk
      · -- key present and canonical: converted to a datetime in place
        set D1 := setv D k0 (.pdt d) with hD1
        have hc1 : ∀ k ∈ ks, CanonAt D1 k := by
          intro k hk
          have hne : k ≠ k0 := fun h => hk0 (h ▸ hk)
          rw [CanonAt, hD1, getv_setv_ne _ _ _ _ hne]
          exact hc k (List.mem_cons_of_mem _ hk)
        obtain ⟨D', heq, huntouched, hmem⟩ := ih hnd' D1 hc1
        refine ⟨D', ?_, ?_, ?_⟩
        · rw [List.foldlM_cons, convertKey_of_canon hd hp]
          simpa using heq
        · intro k hk
          have hne : k ≠ k0 := fun h => hk (h ▸ List.mem_cons_self _ _)
          rw [huntouched k (fun h => hk (List.mem_cons_of_mem _ h)), hD1,
            getv_setv_ne _ _ _ _ hne]
        · intro k hk
          rcases List.mem_cons.mp hk with rfl | hk
          · right
            exact ⟨d, hd, by rw [huntouched k hk0, hD1, getv_setv_self], hp⟩
          · rcases hmem k hk with ⟨h1, h2⟩ | ⟨d', h1, h2, h3⟩
            · left
              have hne : k ≠ k0 := fun h => hk0 (h ▸ hk)
              rw [hD1, getv_setv_ne _ _ _ _ hne] at h1
              exact ⟨h1, h2⟩
            · right
              have hne : k ≠ k0 := fun h => hk0 (h ▸ hk)
              rw [hD1, getv_setv_ne _ _ _ _ hne] at h1
              exact ⟨d', h1, h2, h3⟩

/-- Reading a missing file: `load_job` returns `None` (no error, nothing read). -/
lemma load_job_of_absent {fs : FS} {job_id : String}
    (h : getv fs (get_job_file_path job_id) = none) :
    load_job fs job_id = .ok none := by
  simp [load_job, h]

/-- Reading a canonically stored record: `load_job` succeeds, returns the
record with the present timestamp keys parsed back to datetimes, and leaves
every other key untouched. -/
lemma load_job_char {fs : FS} {job_id : String} {D : Dict}
    (hfs : getv fs (get_job_file_path job_id) = some D)
    (hcanon : ∀ k ∈ datetimeKeys, CanonAt D k) :
    ∃ D', load_job fs job_id = .ok (some D') ∧
      (∀ k, k ∉ datetimeKeys → getv D' k = getv D k) ∧
      (∀ k, k ∈ datetimeKeys →
        (getv D k = none ∧ getv D' k = none) ∨
        ∃ d, getv D k = some (.pstr (isoformat d)) ∧ getv D' k = some (.pdt d) ∧
          fromisoformat (isoformat d) = some d) := by
  obtain ⟨D', heq, h1, h2⟩ :=
    foldlM_convertKey_char datetimeKeys (by decide) D hcanon
  refine ⟨D', ?_, h1, h2⟩
  simp only [load_job, hfs]
  rw [heq]
  rfl

/-- Last-wins lookup in a Python keyword-argument list (`**kwargs` merged
into a dict literal: later duplicates override earlier ones). -/
def kwLast : List (String × PyVal) → String → Option PyVal
  | [], _ => none
  | p :: rest, k =>
      match kwLast rest k with
      | some v => some v
      | none => if p.1 = k then some p.2 else none

lemma kwLast_of_not_mem {l : List (String × PyVal)} {k : String}
    (h : k ∉ l.map Prod.fst) : kwLast l k = none := by
  induction l with
  | nil => rfl
  | cons p rest ih =>
      simp only [List.map_cons, List.mem_cons] at h
      push_neg at h
      simp [kwLast, ih h.2, Ne.symm h.1]

lemma getv_foldl_setv (l : List (String × PyVal)) (X : Dict) (k : String) :
    getv (l.foldl (fun acc kv => setv acc kv.1 kv.2) X) k =
      match kwLast l k with
      | some v => some v
      | none => getv X k := by
  induction l generalizing X with
  | nil => rfl
  | cons p rest ih =>
      obtain ⟨k0, v0⟩ := p
      simp only [List.foldl_cons, kwLast]
      rw [ih]
      cases hrest : kwLast rest k with
      | some v => rfl
      | none =>
          by_cases h0 : k0 = k
          · subst h0
            simp [getv_setv_self]
          · simp [getv_setv_ne _ _ _ _ (Ne.symm h0) , h0]

lemma serializeDict_all_not_pdt (D : Dict) :
    (serializeDict D).all (fun kv => !isPdt kv.2) = true := by
  unfold serializeDict
  rw [List.all_eq_true]
  intro kv hkv
  obtain ⟨kv0, _, rfl⟩ := List.mem_map.mp hkv
  simp [isPdt_serializeVal]

lemma getv_serializeDict (D : Dict) (k : String) :
    getv (serializeDict D) k = (getv D k).map serializeVal :=
  getv_map D k serializeVal

/-- Updating a missing record: `update_job_status` raises nothing, creates
nothing, and leaves the store exactly as it was (the source logs an error
and returns). -/
lemma update_job_status_of_absent {fs : FS} {job_id : String}
    (h : getv fs (get_job_file_path job_id) = none)
    (now : DT) (status : JobStatus) (message : String)
    (kwargs : List (String × PyVal)) :
    update_job_status fs now job_id status message kwargs = .ok fs := by
  rw [update_job_status, load_job_of_absent h]

/-- Full effect of `update_job_status` on a present, canonically stored
record: the store changes only at this job's file, the supplied fields are
written (serialized), and every unsupplied field is carried over exactly. -/
lemma update_job_status_char {fs : FS} {job_id : String} {D : Dict}
    (hfs : getv fs (get_job_file_path job_id) = some D) (hok : StoredOK D)
    (now : DT) (status : JobStatus) (message : String)
    (kwargs : List (String × PyVal)) :
    ∃ Dnew,
      update_job_status fs now job_id status message kwargs =
        .ok (setv fs (get_job_file_path job_id) Dnew) ∧
      (∀ k, k ∉ "status" :: "message" :: "updated_at" :: kwargs.map Prod.fst →
        getv Dnew k = getv D k) ∧
      ("status" ∉ kwargs.map Prod.fst →
        getv Dnew "status" = some (.pstr (statusStr status))) ∧
      ("message" ∉ kwargs.map Prod.fst →
        getv Dnew "message" = some (.pstr message)) ∧
      ("updated_at" ∉ kwargs.map Prod.fst →
        getv Dnew "updated_at" = some (.pstr (isoformat now))) ∧
      (∀ k v, kwLast kwargs k = some v → getv Dnew k = some (serializeVal v)) ∧
      Dnew.all (fun kv => !isPdt kv.2) = true := by
  obtain ⟨D', heq, huntouched, hdt⟩ :=
    load_job_char hfs (fun k hk => storedOK_canonAt hok hk)
  set Dmid := kwargs.foldl (fun acc kv => setv acc kv.1 kv.2)
    (setv (setv (setv D' "status" (.pstr (statusStr status)))
      "message" (.pstr message)) "updated_at" (.pdt now)) with hDmid
  refine ⟨serializeDict Dmid, ?_, ?_, ?_, ?_, ?_, ?_, serializeDict_all_not_pdt _⟩
  · rw [update_job_status, heq]
    rfl
  · intro k hk
    simp only [List.mem_cons] at hk
    push_neg at hk
    obtain ⟨hk1, hk2, hk3, hk4⟩ := hk
    rw [getv_serializeDict, hDmid, getv_foldl_setv, kwLast_of_not_mem hk4,
      getv_setv_ne _ _ _ _ hk3, getv_setv_ne _ _ _ _ hk2, getv_setv_ne _ _ _ _ hk1]
    by_cases hdtk : k ∈ datetimeKeys
    · rcases hdt k hdtk with ⟨h1, h2⟩ | ⟨d, h1, h2, h3⟩
      · rw [h2, h1]; rfl
      · rw [h2, h1]; rfl
    · rw [huntouched k hdtk]
      cases hDk : getv D k with
      | none => rfl
      | some v =>
          have := storedOK_no_pdt hok hDk
          simp [serializeVal_of_not_pdt this]
  · intro hk
    rw [getv_serializeDict, hDmid, getv_foldl_setv, kwLast_of_not_mem hk,
      getv_setv_ne _ _ _ _ (by decide), getv_setv_ne _ _ _ _ (by decide),
      getv_setv_self]
    rfl
  · intro hk
    rw [getv_serializeDict, hDmid, getv_foldl_setv, kwLast_of_not_mem hk,
      getv_setv_ne _ _ _ _ (by decide), getv_setv_self]
    rfl
  · intro hk
    rw [getv_serializeDict, hDmid, getv_foldl_setv, kwLast_of_not_mem hk,
      getv_setv_self]
    rfl
  · intro k v hkv
    rw [getv_serializeDict, hDmid, getv_foldl_setv, hkv]
    rfl

/-- Distinct job ids are stored at distinct file paths. -/
lemma get_job_file_path_inj {a b : String}
    (h : get_job_file_path a = get_job_file_path b) : a = b := by
  unfold get_job_file_path at h
  have hd := congrArg String.data h
  rw [String.data_append, String.data_append] at hd
  exact String.ext (List.append_cancel_right hd)

/-! ### The system as a labelled transition relation

`process_job` is an `async` coroutine.  Its suspension points cut it into
the events below: the synchronous prefix up to and including the
`PROCESSING` update (`begin`), the moment the `ProcessPoolExecutor` grants
one of its `max_workers` slots to the queued work item (`acquire`), and the
terminal update after `await asyncio.wait_for` resolves (`finish…`).  A
timeout can fire while the work item is still queued (the wrapped future is
then cancelled before running) or while it is executing (the worker keeps
running the abandoned item, so its slot stays occupied until the work
function eventually returns — `release`).  `submit` is the `POST /jobs`
endpoint (ids are fresh `uuid4` values), `deleteReq` the `DELETE` endpoint;
the `GET` endpoints are read-only and change no state. -/

/-- Configuration fixed at process start: `api.max_workers` and
`api.job_timeout` from `config.yaml`. -/
structure Cfg where
  maxWorkers : Nat
  timeoutSeconds : Nat

/-- Progress of the dispatcher on one job.  `done` records, for a successful
job, the two `datetime.now()` instants `process_job` used for `start_time`
and `completed_at`. -/
inductive Phase where
  | scheduled
  | marked (start : DT)
  | executing (start : DT)
  | done (times : Option (DT × DT))
deriving DecidableEq

/-- Global state: the jobs directory, the set of staged temporary PGN files,
the dispatcher progress per job, the ids occupying pool workers, and every
id ever issued (uuid4 freshness). -/
structure MState where
  fs : FS
  tmp : List String
  phase : List (String × Phase)
  pool : List String
  used : List String
deriving DecidableEq

def MState.init : MState := ⟨[], [], [], [], []⟩

/-- Event labels (the job id each event concerns). -/
inductive Label where
  | submit (id : String)
  | begin (id : String)
  | acquire (id : String)
  | finishSuccess (id : String)
  | finishError (id : String)
  | finishCrash (id : String)
  | finishTimeout (id : String)
  | release (id : String)
  | deleteReq (id : String)
deriving DecidableEq

/-- One observable event of the system.  Every store access goes through the
embedded functions above; the `hupd`/`hdel` hypotheses record the value the
store call returned. -/
inductive Step (cfg : Cfg) : MState → Label → MState → Prop where
  | submit (s : MState) (id tmpPath : String) (t : DT) (hv : t.Valid)
      (hfresh : id ∉ s.used) :
      Step cfg s (.submit id)
        { fs := save_job s.fs id (initialDict id t tmpPath),
          tmp := tmpPath :: s.tmp,
          phase := setv s.phase id .scheduled,
          pool := s.pool,
          used := id :: s.used }
  | begin (s : MState) (id : String) (t0 t1 : DT) (hv0 : t0.Valid) (hv1 : t1.Valid)
      (hph : getv s.phase id = some .scheduled) (fs' : FS)
      (hupd : update_job_status s.fs t1 id .processing "Processing PGN file..." []
        = .ok fs') :
      Step cfg s (.begin id)
        { s with fs := fs', phase := setv s.phase id (.marked t0) }
  | acquire (s : MState) (id : String) (t0 : DT)
      (hph : getv s.phase id = some (.marked t0))
      (hcap : s.pool.length < cfg.maxWorkers) :
      Step cfg s (.acquire id)
        { s with phase := setv s.phase id (.executing t0), pool := id :: s.pool }
  | finishSuccess (s : MState) (id : String) (t0 t tu : DT)
      (hvt : t.Valid) (hvu : tu.Valid) (r : Nat)
      (hph : getv s.phase id = some (.executing t0)) (fs' : FS)
      (hupd : update_job_status s.fs tu id .completed "Analysis completed successfully"
        [("results", .pjson r), ("completed_at", .pdt t),
         ("processing_time", .pnum (totalSeconds t0 t))] = .ok fs') :
      Step cfg s (.finishSuccess id)
        { s with
          fs := fs', phase := setv s.phase id (.done (some (t0, t))),
          pool := s.pool.erase id }
  | finishError (s : MState) (id : String) (t0 tu : DT) (hvu : tu.Valid) (e : String)
      (hph : getv s.phase id = some (.executing t0)) (fs' : FS)
      (hupd : update_job_status s.fs tu id .failed ("Analysis failed: " ++ e)
        [("error", .pstr e)] = .ok fs') :
      Step cfg s (.finishError id)
        { s with
          fs := fs', phase := setv s.phase id (.done none),
          pool := s.pool.erase id }
  | finishCrash (s : MState) (id : String) (t0 tu : DT) (hvu : tu.Valid) (e : String)
      (hph : getv s.phase id = some (.marked t0) ∨ getv s.phase id = some (.executing t0))
      (fs' : FS)
      (hupd : update_job_status s.fs tu id .failed ("Analysis failed: " ++ e)
        [("error", .pstr ("Analysis failed: " ++ e))] = .ok fs') :
      Step cfg s (.finishCrash id)
        { s with
          fs := fs', phase := setv s.phase id (.done none),
          pool := s.pool.erase id }
  | finishTimeout (s : MState) (id : String) (t0 tu : DT) (hvu : tu.Valid)
      (hph : getv s.phase id = some (.marked t0) ∨ getv s.phase id = some (.executing t0))
      (fs' : FS)
      (hupd : update_job_status s.fs tu id .failed (timeoutMsg cfg.timeoutSeconds)
        [("error", .pstr (timeoutMsg cfg.timeoutSeconds))] = .ok fs') :
      Step cfg s (.finishTimeout id)
        { s with fs := fs', phase := setv s.phase id (.done none) }
  | release (s : MState) (id : String) (times : Option (DT × DT))
      (hph : getv s.phase id = some (.done times)) (hmem : id ∈ s.pool) :
      Step cfg s (.release id) { s with pool := s.pool.erase id }
  | deleteReq (s : MState) (id : String) (fs' : FS) (tmp' : List String)
      (res : DelResult)
      (hdel : delete_job s.fs s.tmp id = .ok (fs', tmp', res)) :
      Step cfg s (.deleteReq id) { s with fs := fs', tmp := tmp' }

/-- States reachable from the empty store by system events. -/
inductive Reachable (cfg : Cfg) : MState → Prop where
  | init : Reachable cfg MState.init
  | step {s : MState} {l : Label} {s' : MState} :
      Reachable cfg s → Step cfg s l s' → Reachable cfg s'

/-- The stored record of a job, if any. -/
def jobRec (s : MState) (id : String) : Option Dict :=
  getv s.fs (get_job_file_path id)

/-- The record's status field holds this status. -/
def statusIs (D : Dict) (st : JobStatus) : Prop :=
  getv D "status" = some (.pstr (statusStr st))

instance (D : Dict) (st : JobStatus) : Decidable (statusIs D st) := by
  unfold statusIs; infer_instance

/-! ### The reachable-state invariant -/

/-- Relation between the dispatcher's progress on a job and the status its
record shows. -/
def phaseStatus : Option Phase → JobStatus → Prop
  | none, _ => False
  | some .scheduled, st => st = .pending
  | some (.marked _), st => st = .processing
  | some (.executing _), st => st = .processing
  | some (.done times), st => (st = .completed ∧ times ≠ none) ∨ st = .failed

/-- Shape of a present record in a reachable state. -/
def recInv (s : MState) (id : String) (D : Dict) : Prop :=
  id ∈ s.used ∧ StoredOK D ∧
  ∃ st : JobStatus, statusIs D st ∧ phaseStatus (getv s.phase id) st ∧
    ((st = .pending ∨ st = .processing) →
      getv D "results" = none ∧ getv D "error" = none ∧
      getv D "completed_at" = none ∧ getv D "processing_time" = none) ∧
    (st = .completed →
      (∃ r, getv D "results" = some (.pjson r)) ∧ getv D "error" = none ∧
      (∃ a b, getv s.phase id = some (.done (some (a, b))) ∧
        getv D "completed_at" = some (.pstr (isoformat b)) ∧
        getv D "processing_time" = some (.pnum (totalSeconds a b)))) ∧
    (st = .failed →
      (∃ e, getv D "error" = some (.pstr e)) ∧ getv D "results" = none ∧
      getv D "completed_at" = none ∧ getv D "processing_time" = none)

/-- Per-job invariant: every stored record has the reachable shape. -/
def InvId (s : MState) (id : String) : Prop :=
  ∀ D, jobRec s id = some D → recInv s id D

/-- Global invariant: the pool never exceeds its bound, and every record is
well-shaped. -/
def Inv (cfg : Cfg) (s : MState) : Prop :=
  s.pool.length ≤ cfg.maxWorkers ∧ ∀ id, InvId s id

lemma canonVal_iso {d : DT} (hv : d.Valid) :
    canonVal (.pstr (isoformat d)) = true := by
  simp [canonVal, canonIso, fromisoformat_isoformat d hv]

lemma storedOK_intro {D : Dict}
    (hall : D.all (fun kv => !isPdt kv.2) = true)
    (h : ∀ k ∈ datetimeKeys,
      getv D k = none ∨ ∃ v, getv D k = some v ∧ canonVal v = true) :
    StoredOK D := by
  unfold StoredOK storedOKb
  rw [Bool.and_eq_true]
  refine ⟨hall, ?_⟩
  rw [List.all_eq_true]
  intro k hk
  rcases h k hk with h0 | ⟨v, hv, hc⟩
  · simp [h0]
  · simp [hv, hc]

lemma storedOK_elim {D : Dict} (hok : StoredOK D) {k : String}
    (hk : k ∈ datetimeKeys) :
    getv D k = none ∨ ∃ v, getv D k = some v ∧ canonVal v = true := by
  unfold StoredOK storedOKb at hok
  simp only [Bool.and_eq_true, List.all_eq_true] at hok
  have hmk := hok.2 k hk
  cases hD : getv D k with
  | none => exact Or.inl rfl
  | some v =>
      rw [hD] at hmk
      exact Or.inr ⟨v, rfl, hmk⟩

lemma path_ne {a b : String} (h : a ≠ b) :
    get_job_file_path a ≠ get_job_file_path b :=
  fun hh => h (get_job_file_path_inj hh)

/-- The store after a successful `delete_job` call: either untouched (404
path) or with exactly this job's file unlinked. -/
lemma delete_job_fs_char {fs : FS} {tmp : List String} {id : String}
    {fs' : FS} {tmp' : List String} {res : DelResult}
    (h : delete_job fs tmp id = .ok (fs', tmp', res)) :
    fs' = fs ∨ fs' = delv fs (get_job_file_path id) := by
  unfold delete_job at h
  cases hl : load_job fs id with
  | error e => rw [hl] at h; exact absurd h (by simp)
  | ok o =>
      rw [hl] at h
      cases o with
      | none =>
          simp only [Except.ok.injEq, Prod.mk.injEq] at h
          exact Or.inl h.1.symm
      | some D =>
          unfold delete_job_file at h
          by_cases hex : (getv fs (get_job_file_path id)).isSome
          · rw [if_pos hex] at h
            simp only [Except.ok.injEq, Prod.mk.injEq] at h
            exact Or.inr h.1.symm
          · rw [if_neg hex] at h
            simp only [Except.ok.injEq, Prod.mk.injEq] at h
            exact Or.inl h.1.symm

/-- Carrying the per-job record shape across a step that does not disturb
this job's phase or its membership in `used` (the record itself is the same
dictionary). -/
lemma recInv_transfer {s s' : MState} {id : String} {D : Dict}
    (h : recInv s id D)
    (hph : getv s'.phase id = getv s.phase id)
    (hused : ∀ x, x ∈ s.used → x ∈ s'.used) : recInv s' id D := by
  obtain ⟨hu, hok, st, hst, hphst, hnont, hcomp, hfail⟩ := h
  refine ⟨hused _ hu, hok, st, hst, ?_, hnont, ?_, hfail⟩
  · rw [hph]; exact hphst
  · intro hc
    obtain ⟨hr, he, a, b, hphv, hca, hpt⟩ := hcomp hc
    exact ⟨hr, he, a, b, by rw [hph]; exact hphv, hca, hpt⟩

lemma inv_init (cfg : Cfg) : Inv cfg MState.init := by
  constructor
  · simp [MState.init]
  · intro id D hD
    simp [jobRec, MState.init, getv] at hD

/-! ### Effect of each dispatcher update on a well-shaped record -/

lemma getv_initial_status (id t tmpPath) :
    getv (serializeDict (initialDict id t tmpPath)) "status"
      = some (.pstr (statusStr .pending)) := rfl

/-- The record written by `submit_job`, after serialization. -/
lemma initial_facts (id tmpPath : String) {t : DT} (hv : t.Valid) :
    StoredOK (serializeDict (initialDict id t tmpPath)) ∧
    statusIs (serializeDict (initialDict id t tmpPath)) .pending ∧
    getv (serializeDict (initialDict id t tmpPath)) "results" = none ∧
    getv (serializeDict (initialDict id t tmpPath)) "error" = none ∧
    getv (serializeDict (initialDict id t tmpPath)) "completed_at" = none ∧
    getv (serializeDict (initialDict id t tmpPath)) "processing_time" = none := by
  refine ⟨?_, rfl, rfl, rfl, rfl, rfl⟩
  refine storedOK_intro (serializeDict_all_not_pdt _) ?_
  intro k hk
  simp only [datetimeKeys, List.mem_cons, List.not_mem_nil, or_false] at hk
  rcases hk with rfl | rfl | rfl
  · exact Or.inr ⟨.pstr (isoformat t), rfl, canonVal_iso hv⟩
  · exact Or.inr ⟨.pstr (isoformat t), rfl, canonVal_iso hv⟩
  · exact Or.inl rfl

/-- Effect of the `PROCESSING` update of `process_job` on a record whose
optional fields are still absent. -/
lemma record_after_processing {s : MState} {id : String} {D : Dict}
    (hD : jobRec s id = some D) (hok : StoredOK D)
    (hnont : getv D "results" = none ∧ getv D "error" = none ∧
      getv D "completed_at" = none ∧ getv D "processing_time" = none)
    {t1 : DT} (hv1 : t1.Valid) {fs' : FS}
    (hupd : update_job_status s.fs t1 id .processing "Processing PGN file..." []
      = .ok fs') :
    ∃ Dnew, fs' = setv s.fs (get_job_file_path id) Dnew ∧ StoredOK Dnew ∧
      statusIs Dnew .processing ∧
      getv Dnew "results" = none ∧ getv Dnew "error" = none ∧
      getv Dnew "completed_at" = none ∧ getv Dnew "processing_time" = none := by
  obtain ⟨Dnew, heq, huntouched, hstatus, hmsg, hupdated, hkw, hall⟩ :=
    update_job_status_char hD hok t1 .processing "Processing PGN file..." []
  rw [heq] at hupd
  injection hupd with hupd
  refine ⟨Dnew, hupd.symm, ?_, ?_, ?_, ?_, ?_, ?_⟩
  · refine storedOK_intro hall ?_
    intro k hk
    simp only [datetimeKeys, List.mem_cons, List.not_mem_nil, or_false] at hk
    rcases hk with rfl | rfl | rfl
    · rw [huntouched "created_at" (by simp)]
      exact storedOK_elim hok (by decide)
    · exact Or.inr ⟨.pstr (isoformat t1), hupdated (by simp), canonVal_iso hv1⟩
    · rw [huntouched "completed_at" (by simp)]
      exact storedOK_elim hok (by decide)
  · exact hstatus (by simp)
  · rw [huntouched "results" (by simp)]; exact hnont.1
  · rw [huntouched "error" (by simp)]; exact hnont.2.1
  · rw [huntouched "completed_at" (by simp)]; exact hnont.2.2.1
  · rw [huntouched "processing_time" (by simp)]; exact hnont.2.2.2

/-- Effect of the `COMPLETED` update of `process_job`. -/
lemma record_after_success {s : MState} {id : String} {D : Dict}
    (hD : jobRec s id = some D) (hok : StoredOK D)
    (hnont : getv D "results" = none ∧ getv D "error" = none ∧
      getv D "completed_at" = none ∧ getv D "processing_time" = none)
    {t0 t tu : DT} (hvt : t.Valid) (hvu : tu.Valid) {r : Nat} {fs' : FS}
    (hupd : update_job_status s.fs tu id .completed "Analysis completed successfully"
      [("results", .pjson r), ("completed_at", .pdt t),
       ("processing_time", .pnum (totalSeconds t0 t))] = .ok fs') :
    ∃ Dnew, fs' = setv s.fs (get_job_file_path id) Dnew ∧ StoredOK Dnew ∧
      statusIs Dnew .completed ∧
      getv Dnew "results" = some (.pjson r) ∧ getv Dnew "error" = none ∧
      getv Dnew "completed_at" = some (.pstr (isoformat t)) ∧
      getv Dnew "processing_time" = some (.pnum (totalSeconds t0 t)) := by
  obtain ⟨Dnew, heq, huntouched, hstatus, hmsg, hupdated, hkw, hall⟩ :=
    update_job_status_char hD hok tu .completed "Analysis completed successfully"
      [("results", .pjson r), ("completed_at", .pdt t),
       ("processing_time", .pnum (totalSeconds t0 t))]
  rw [heq] at hupd
  injection hupd with hupd
  refine ⟨Dnew, hupd.symm, ?_, ?_, ?_, ?_, ?_, ?_⟩
  · refine storedOK_intro hall ?_
    intro k hk
    simp only [datetimeKeys, List.mem_cons, List.not_mem_nil, or_false] at hk
    rcases hk with rfl | rfl | rfl
    · rw [huntouched "created_at" (by simp)]
      exact storedOK_elim hok (by decide)
    · exact Or.inr ⟨.pstr (isoformat tu), hupdated (by simp), canonVal_iso hvu⟩
    · exact Or.inr ⟨.pstr (isoformat t), hkw "completed_at" (.pdt t) (by rfl),
        canonVal_iso hvt⟩
  · exact hstatus (by simp)
  · exact hkw "results" (.pjson r) (by rfl)
  · rw [huntouched "error" (by simp)]; exact hnont.2.1
  · exact hkw "completed_at" (.pdt t) (by rfl)
  · exact hkw "processing_time" (.pnum (totalSeconds t0 t)) (by rfl)

/-- Effect of any of the three `FAILED` updates of `process_job` (raised
error, worker-reported error, timeout): the message varies, the keyword
arguments are always exactly `error=<err>`. -/
lemma record_after_fail {s : MState} {id : String} {D : Dict}
    (hD : jobRec s id = some D) (hok : StoredOK D)
    (hnont : getv D "results" = none ∧ getv D "error" = none ∧
      getv D "completed_at" = none ∧ getv D "processing_time" = none)
    {tu : DT} (hvu : tu.Valid) {msg err : String} {fs' : FS}
    (hupd : update_job_status s.fs tu id .failed msg [("error", .pstr err)]
      = .ok fs') :
    ∃ Dnew, fs' = setv s.fs (get_job_file_path id) Dnew ∧ StoredOK Dnew ∧
      statusIs Dnew .failed ∧
      getv Dnew "error" = some (.pstr err) ∧ getv Dnew "results" = none ∧
      getv Dnew "completed_at" = none ∧ getv Dnew "processing_time" = none := by
  obtain ⟨Dnew, heq, huntouched, hstatus, hmsg, hupdated, hkw, hall⟩ :=
    update_job_status_char hD hok tu .failed msg [("error", .pstr err)]
  rw [heq] at hupd
  injection hupd with hupd
  refine ⟨Dnew, hupd.symm, ?_, ?_, ?_, ?_, ?_, ?_⟩
  · refine storedOK_intro hall ?_
    intro k hk
    simp only [datetimeKeys, List.mem_cons, List.not_mem_nil, or_false] at hk
    rcases hk with rfl | rfl | rfl
    · rw [huntouched "created_at" (by simp)]
      exact storedOK_elim hok (by decide)
    · exact Or.inr ⟨.pstr (isoformat tu), hupdated (by simp), canonVal_iso hvu⟩
    · rw [huntouched "completed_at" (by simp)]
      exact storedOK_elim hok (by decide)
  · exact hstatus (by simp)
  · exact hkw "error" (.pstr err) (by rfl)
  · rw [huntouched "results" (by simp)]; exact hnont.1
  · rw [huntouched "completed_at" (by simp)]; exact hnont.2.2.1
  · rw [huntouched "processing_time" (by simp)]; exact hnont.2.2.2

/-- The global invariant is preserved by every event. -/
lemma inv_step {cfg : Cfg} {s : MState} {l : Label} {s' : MState}
    (hinv : Inv cfg s) (hstep : Step cfg s l s') : Inv cfg s' := by
  obtain ⟨hpool, hids⟩ := hinv
  cases hstep with
  | submit id tmpPath t hv hfresh =>
      refine ⟨hpool, ?_⟩
      intro id' D hD'
      simp only [jobRec, save_job] at hD'
      by_cases hid : id' = id
      · subst hid
        rw [getv_setv_self] at hD'
        injection hD' with hD'
        subst hD'
        obtain ⟨hok, hst, hr, he, hca, hpt⟩ := initial_facts id' tmpPath hv
        refine ⟨List.mem_cons_self _ _, hok, .pending, hst, ?_, ?_, ?_, ?_⟩
        · show phaseStatus (getv (setv s.phase id' .scheduled) id') .pending
          rw [getv_setv_self]
          exact rfl
        · intro _; exact ⟨hr, he, hca, hpt⟩
        · intro hc; nomatch hc
        · intro hf; nomatch hf
      · rw [getv_setv_ne _ _ _ _ (path_ne hid)] at hD'
        refine recInv_transfer (hids id' D hD') ?_ ?_
        · show getv (setv s.phase id .scheduled) id' = getv s.phase id'
          exact getv_setv_ne _ _ _ _ hid
        · intro x hx
          exact List.mem_cons_of_mem _ hx
  | begin id t0 t1 hv0 hv1 hph fs' hupd =>
      refine ⟨hpool, ?_⟩
      cases hrec : jobRec s id with
      | none =>
          rw [jobRec] at hrec
          have hfs : fs' = s.fs := by
            have h0 := update_job_status_of_absent hrec t1 .processing
              "Processing PGN file..." []
            rw [h0] at hupd
            injection hupd with h
            exact h.symm
          subst hfs
          intro id' D hD'
          simp only [jobRec] at hD'
          by_cases hid : id' = id
          · subst hid
            rw [hrec] at hD'
            exact absurd hD' (by simp)
          · refine recInv_transfer (hids id' D hD') ?_ (fun x hx => hx)
            exact getv_setv_ne _ _ _ _ hid
      | some D0 =>
          obtain ⟨hu, hok, st, hst, hphst, hnont, hcomp, hfail⟩ := hids id D0 hrec
          rw [hph] at hphst
          have hstp : st = .pending := hphst
          subst hstp
          obtain ⟨Dnew, hfseq, hokN, hstN, hrN, heN, hcaN, hptN⟩ :=
            record_after_processing hrec hok (hnont (Or.inl rfl)) hv1 hupd
          subst hfseq
          intro id' D hD'
          simp only [jobRec] at hD'
          by_cases hid : id' = id
          · subst hid
            rw [getv_setv_self] at hD'
            injection hD' with hD'
            subst hD'
            refine ⟨hu, hokN, .processing, hstN, ?_, ?_, ?_, ?_⟩
            · show phaseStatus (getv (setv s.phase id' (.marked t0)) id') .processing
              rw [getv_setv_self]
              exact rfl
            · intro _; exact ⟨hrN, heN, hcaN, hptN⟩
            · intro hc; nomatch hc
            · intro hf; nomatch hf
          · rw [getv_setv_ne _ _ _ _ (path_ne hid)] at hD'
            refine recInv_transfer (hids id' D hD') ?_ (fun x hx => hx)
            exact getv_setv_ne _ _ _ _ hid
  | acquire id t0 hph hcap =>
      constructor
      · show (id :: s.pool).length ≤ cfg.maxWorkers
        rw [List.length_cons]
        exact hcap
      · intro id' D hD'
        simp only [jobRec] at hD'
        by_cases hid : id' = id
        · subst hid
          obtain ⟨hu, hok, st, hst, hphst, hnont, hcomp, hfail⟩ := hids id' D hD'
          rw [hph] at hphst
          have hstp : st = .processing := hphst
          subst hstp
          refine ⟨hu, hok, .processing, hst, ?_, hnont, ?_, ?_⟩
          · show phaseStatus (getv (setv s.phase id' (.executing t0)) id') .processing
            rw [getv_setv_self]
            exact rfl
          · intro hc; nomatch hc
          · intro hf; nomatch hf
        · refine recInv_transfer (hids id' D hD') ?_ (fun x hx => hx)
          exact getv_setv_ne _ _ _ _ hid
  | finishSuccess id t0 t tu hvt hvu r hph fs' hupd =>
      refine ⟨le_trans (List.length_erase_le _ _) hpool, ?_⟩
      cases hrec : jobRec s id with
      | none =>
          rw [jobRec] at hrec
          have hfs : fs' = s.fs := by
            have h0 := update_job_status_of_absent hrec tu .completed
              "Analysis completed successfully"
              [("results", .pjson r), ("completed_at", .pdt t),
               ("processing_time", .pnum (totalSeconds t0 t))]
            rw [h0] at hupd
            injection hupd with h
            exact h.symm
          subst hfs
          intro id' D hD'
          simp only [jobRec] at hD'
          by_cases hid : id' = id
          · subst hid
            rw [hrec] at hD'
            exact absurd hD' (by simp)
          · refine recInv_transfer (hids id' D hD') ?_ (fun x hx => hx)
            exact getv_setv_ne _ _ _ _ hid
      | some D0 =>
          obtain ⟨hu, hok, st, hst, hphst, hnont, hcomp, hfail⟩ := hids id D0 hrec
          rw [hph] at hphst
          have hstp : st = .processing := hphst
          subst hstp
          obtain ⟨Dnew, hfseq, hokN, hstN, hrN, heN, hcaN, hptN⟩ :=
            record_after_success hrec hok (hnont (Or.inr rfl)) hvt hvu hupd
          subst hfseq
          intro id' D hD'
          simp only [jobRec] at hD'
          by_cases hid : id' = id
          · subst hid
            rw [getv_setv_self] at hD'
            injection hD' with hD'
            subst hD'
            refine ⟨hu, hokN, .completed, hstN, ?_, ?_, ?_, ?_⟩
            · show phaseStatus (getv (setv s.phase id' (.done (some (t0, t)))) id')
                .completed
              rw [getv_setv_self]
              exact Or.inl ⟨rfl, by simp⟩
            · intro h; rcases h with h | h <;> nomatch h
            · intro _
              refine ⟨⟨r, hrN⟩, heN, t0, t, ?_, hcaN, hptN⟩
              show getv (setv s.phase id' (.done (some (t0, t)))) id'
                = some (.done (some (t0, t)))
              rw [getv_setv_self]
            · intro hf; nomatch hf
          · rw [getv_setv_ne _ _ _ _ (path_ne hid)] at hD'
            refine recInv_transfer (hids id' D hD') ?_ (fun x hx => hx)
            exact getv_setv_ne _ _ _ _ hid
  | finishError id t0 tu hvu e hph fs' hupd =>
      refine ⟨le_trans (List.length_erase_le _ _) hpool, ?_⟩
      cases hrec : jobRec s id with
      | none =>
          rw [jobRec] at hrec
          have hfs : fs' = s.fs := by
            have h0 := update_job_status_of_absent hrec tu .failed
              ("Analysis failed: " ++ e) [("error", .pstr e)]
            rw [h0] at hupd
            injection hupd with h
            exact h.symm
          subst hfs
          intro id' D hD'
          simp only [jobRec] at hD'
          by_cases hid : id' = id
          · subst hid
            rw [hrec] at hD'
            exact absurd hD' (by simp)
          · refine recInv_transfer (hids id' D hD') ?_ (fun x hx => hx)
            exact getv_setv_ne _ _ _ _ hid
      | some D0 =>
          obtain ⟨hu, hok, st, hst, hphst, hnont, hcomp, hfail⟩ := hids id D0 hrec
          rw [hph] at hphst
          have hstp : st = .processing := hphst
          subst hstp
          obtain ⟨Dnew, hfseq, hokN, hstN, heN, hrN, hcaN, hptN⟩ :=
            record_after_fail hrec hok (hnont (Or.inr rfl)) hvu hupd
          subst hfseq
          intro id' D hD'
          simp only [jobRec] at hD'
          by_cases hid : id' = id
          · subst hid
            rw [getv_setv_self] at hD'
            injection hD' with hD'
            subst hD'
            refine ⟨hu, hokN, .failed, hstN, ?_, ?_, ?_, ?_⟩
            · show phaseStatus (getv (setv s.phase id' (.done none)) id') .failed
              rw [getv_setv_self]
              exact Or.inr rfl
            · intro h; rcases h with h | h <;> nomatch h
            · intro hc; nomatch hc
            · intro _; exact ⟨⟨e, heN⟩, hrN, hcaN, hptN⟩
          · rw [getv_setv_ne _ _ _ _ (path_ne hid)] at hD'
            refine recInv_transfer (hids id' D hD') ?_ (fun x hx => hx)
            exact getv_setv_ne _ _ _ _ hid
  | finishCrash id t0 tu hvu e hph fs' hupd =>
      refine ⟨le_trans (List.length_erase_le _ _) hpool, ?_⟩
      cases hrec : jobRec s id with
      | none =>
          rw [jobRec] at hrec
          have hfs : fs' = s.fs := by
            have h0 := update_job_status_of_absent hrec tu .failed
              ("Analysis failed: " ++ e) [("error", .pstr ("Analysis failed: " ++ e))]
            rw [h0] at hupd
            injection hupd with h
            exact h.symm
          subst hfs
          intro id' D hD'
          simp only [jobRec] at hD'
          by_cases hid : id' = id
          · subst hid
            rw [hrec] at hD'
            exact absurd hD' (by simp)
          · refine recInv_transfer (hids id' D hD') ?_ (fun x hx => hx)
            exact getv_setv_ne _ _ _ _ hid
      | some D0 =>
          obtain ⟨hu, hok, st, hst, hphst, hnont, hcomp, hfail⟩ := hids id D0 hrec
          have hstp : st = .processing := by
            rcases hph with h | h <;> rw [h] at hphst <;> exact hphst
          subst hstp
          obtain ⟨Dnew, hfseq, hokN, hstN, heN, hrN, hcaN, hptN⟩ :=
            record_after_fail hrec hok (hnont (Or.inr rfl)) hvu hupd
          subst hfseq
          intro id' D hD'
          simp only [jobRec] at hD'
          by_cases hid : id' = id
          · subst hid
            rw [getv_setv_self] at hD'
            injection hD' with hD'
            subst hD'
            refine ⟨hu, hokN, .failed, hstN, ?_, ?_, ?_, ?_⟩
            · show phaseStatus (getv (setv s.phase id' (.done none)) id') .failed
              rw [getv_setv_self]
              exact Or.inr rfl
            · intro h; rcases h with h | h <;> nomatch h
            · intro hc; nomatch hc
            · intro _; exact ⟨⟨_, heN⟩, hrN, hcaN, hptN⟩
          · rw [getv_setv_ne _ _ _ _ (path_ne hid)] at hD'
            refine recInv_transfer (hids id' D hD') ?_ (fun x hx => hx)
            exact getv_setv_ne _ _ _ _ hid
  | finishTimeout id t0 tu hvu hph fs' hupd =>
      refine ⟨hpool, ?_⟩
      cases hrec : jobRec s id with
      | none =>
          rw [jobRec] at hrec
          have hfs : fs' = s.fs := by
            have h0 := update_job_status_of_absent hrec tu .failed
              (timeoutMsg cfg.timeoutSeconds)
              [("error", .pstr (timeoutMsg cfg.timeoutSeconds))]
            rw [h0] at hupd
            injection hupd with h
            exact h.symm
          subst hfs
          intro id' D hD'
          simp only [jobRec] at hD'
          by_cases hid : id' = id
          · subst hid
            rw [hrec] at hD'
            exact absurd hD' (by simp)
          · refine recInv_transfer (hids id' D hD') ?_ (fun x hx => hx)
            exact getv_setv_ne _ _ _ _ hid
      | some D0 =>
          obtain ⟨hu, hok, st, hst, hphst, hnont, hcomp, hfail⟩ := hids id D0 hrec
          have hstp : st = .processing := by
            rcases hph with h | h <;> rw [h] at hphst <;> exact hphst
          subst hstp
          obtain ⟨Dnew, hfseq, hokN, hstN, heN, hrN, hcaN, hptN⟩ :=
            record_after_fail hrec hok (hnont (Or.inr rfl)) hvu hupd
          subst hfseq
          intro id' D hD'
          simp only [jobRec] at hD'
          by_cases hid : id' = id
          · subst hid
            rw [getv_setv_self] at hD'
            injection hD' with hD'
            subst hD'
            refine ⟨hu, hokN, .failed, hstN, ?_, ?_, ?_, ?_⟩
            · show phaseStatus (getv (setv s.phase id' (.done none)) id') .failed
              rw [getv_setv_self]
              exact Or.inr rfl
            · intro h; rcases h with h | h <;> nomatch h
            · intro hc; nomatch hc
            · intro _; exact ⟨⟨_, heN⟩, hrN, hcaN, hptN⟩
          · rw [getv_setv_ne _ _ _ _ (path_ne hid)] at hD'
            refine recInv_transfer (hids id' D hD') ?_ (fun x hx => hx)
            exact getv_setv_ne _ _ _ _ hid
  | release id times hph hmem =>
      refine ⟨le_trans (List.length_erase_le _ _) hpool, ?_⟩
      intro id' D hD'
      exact recInv_transfer (hids id' D hD') rfl (fun x hx => hx)
  | deleteReq id fs' tmp' res hdel =>
      refine ⟨hpool, ?_⟩
      rcases delete_job_fs_char hdel with hfs | hfs
      · subst hfs
        intro id' D hD'
        exact recInv_transfer (hids id' D hD') rfl (fun x hx => hx)
      · subst hfs
        intro id' D hD'
        simp only [jobRec] at hD'
        by_cases hid : id' = id
        · subst hid
          rw [getv_delv_self] at hD'
          exact absurd hD' (by simp)
        · rw [getv_delv_ne _ _ _ (path_ne hid)] at hD'
          exact recInv_transfer (hids id' D hD') rfl (fun x hx => hx)

/-- Every reachable state satisfies the invariant. -/
lemma inv_reachable {cfg : Cfg} {s : MState} (h : Reachable cfg s) : Inv cfg s := by
  induction h with
  | init => exact inv_init cfg
  | step _ hstep ih => exact inv_step ih hstep

/-! ### The save/load round-trip (claim C2) -/

/-- An optional field of a job dictionary: a present or absent key. -/
def optField (k : String) : Option PyVal → Dict
  | none => []
  | some v => [(k, v)]

/-- A job record over the defined fields: the six fields every record has
and the four optional ones (`results`, `error`, `completed_at`,
`processing_time`), each independently present or absent. -/
def jobDict (job_id : String) (st : JobStatus) (message : String)
    (created_at updated_at : DT) (pgn_file_path : String)
    (results : Option Nat) (error : Option String)
    (completed_at : Option DT) (processing_time : Option ℚ) : Dict :=
  [("job_id", .pstr job_id), ("status", .pstr (statusStr st)),
   ("message", .pstr message), ("created_at", .pdt created_at),
   ("updated_at", .pdt updated_at), ("pgn_file_path", .pstr pgn_file_path)]
  ++ optField "results" (results.map .pjson)
  ++ optField "error" (error.map .pstr)
  ++ optField "completed_at" (completed_at.map .pdt)
  ++ optField "processing_time" (processing_time.map .pnum)

lemma jobDict_fields (job_id : String) (st : JobStatus) (message : String)
    (created_at updated_at : DT) (pgn_file_path : String)
    (results : Option Nat) (error : Option String)
    (completed_at : Option DT) (processing_time : Option ℚ) :
    getv (jobDict job_id st message created_at updated_at pgn_file_path
      results error completed_at processing_time) "job_id"
      = some (.pstr job_id) ∧
    getv (jobDict job_id st message created_at updated_at pgn_file_path
      results error completed_at processing_time) "status"
      = some (.pstr (statusStr st)) ∧
    getv (jobDict job_id st message created_at updated_at pgn_file_path
      results error completed_at processing_time) "message"
      = some (.pstr message) ∧
    getv (jobDict job_id st message created_at updated_at pgn_file_path
      results error completed_at processing_time) "created_at"
      = some (.pdt created_at) ∧
    getv (jobDict job_id st message created_at updated_at pgn_file_path
      results error completed_at processing_time) "updated_at"
      = some (.pdt updated_at) ∧
    getv (jobDict job_id st message created_at updated_at pgn_file_path
      results error completed_at processing_time) "pgn_file_path"
      = some (.pstr pgn_file_path) ∧
    getv (jobDict job_id st message created_at updated_at pgn_file_path
      results error completed_at processing_time) "results"
      = results.map .pjson ∧
    getv (jobDict job_id st message created_at updated_at pgn_file_path
      results error completed_at processing_time) "error"
      = error.map .pstr ∧
    getv (jobDict job_id st message created_at updated_at pgn_file_path
      results error completed_at processing_time) "completed_at"
      = completed_at.map .pdt ∧
    getv (jobDict job_id st message created_at updated_at pgn_file_path
      results error completed_at processing_time) "processing_time"
      = processing_time.map .pnum := by
  cases results <;> cases error <;> cases completed_at <;> cases processing_time <;>
    exact ⟨rfl, rfl, rfl, rfl, rfl, rfl, rfl, rfl, rfl, rfl⟩

lemma jobDict_other (job_id : String) (st : JobStatus) (message : String)
    (created_at updated_at : DT) (pgn_file_path : String)
    (results : Option Nat) (error : Option String)
    (completed_at : Option DT) (processing_time : Option ℚ) {k : String}
    (h1 : k ≠ "job_id") (h2 : k ≠ "status") (h3 : k ≠ "message")
    (h4 : k ≠ "created_at") (h5 : k ≠ "updated_at") (h6 : k ≠ "pgn_file_path")
    (h7 : k ≠ "results") (h8 : k ≠ "error") (h9 : k ≠ "completed_at")
    (h10 : k ≠ "processing_time") :
    getv (jobDict job_id st message created_at updated_at pgn_file_path
      results error completed_at processing_time) k = none := by
  cases results <;> cases error <;> cases completed_at <;> cases processing_time <;>
    simp [jobDict, optField, getv, Ne.symm h1, Ne.symm h2, Ne.symm h3, Ne.symm h4,
      Ne.symm h5, Ne.symm h6, Ne.symm h7, Ne.symm h8, Ne.symm h9, Ne.symm h10]

/-- C2.  Storing any job record with `save_job` and immediately reading it
back with `load_job` succeeds and returns a record field-for-field equal to
the one stored: every timestamp round-trips to an equal `datetime`, every
optional field is present after the round-trip iff it was present before
(never replaced by a sentinel value), and no other key appears. -/
theorem save_load_roundtrip (fs : FS) (job_id message pgn_file_path : String)
    (st : JobStatus) (created_at updated_at : DT)
    (results : Option Nat) (error : Option String)
    (completed_at : Option DT) (processing_time : Option ℚ)
    (hca : created_at.Valid) (hua : updated_at.Valid)
    (hcat : ∀ d, completed_at = some d → d.Valid) :
    ∃ D', load_job (save_job fs job_id
        (jobDict job_id st message created_at updated_at pgn_file_path
          results error completed_at processing_time)) job_id = .ok (some D') ∧
      ∀ k, getv D' k = getv (jobDict job_id st message created_at updated_at
        pgn_file_path results error completed_at processing_time) k := by
  obtain ⟨g1, g2, g3, g4, g5, g6, g7, g8, g9, g10⟩ :=
    jobDict_fields job_id st message created_at updated_at pgn_file_path
      results error completed_at processing_time
  set J := jobDict job_id st message created_at updated_at pgn_file_path
      results error completed_at processing_time with hJ
  have hget : getv (save_job fs job_id J) (get_job_file_path job_id)
      = some (serializeDict J) := by
    rw [save_job]; exact getv_setv_self _ _ _
  have hsca : getv (serializeDict J) "created_at"
      = some (.pstr (isoformat created_at)) := by
    rw [getv_serializeDict, g4]; rfl
  have hsua : getv (serializeDict J) "updated_at"
      = some (.pstr (isoformat updated_at)) := by
    rw [getv_serializeDict, g5]; rfl
  have hscat : getv (serializeDict J) "completed_at"
      = completed_at.map (fun d => PyVal.pstr (isoformat d)) := by
    rw [getv_serializeDict, g9]
    cases completed_at <;> rfl
  have hcanon : ∀ k ∈ datetimeKeys, CanonAt (serializeDict J) k := by
    intro k hk
    simp only [datetimeKeys, List.mem_cons, List.not_mem_nil, or_false] at hk
    rcases hk with rfl | rfl | rfl
    · exact Or.inr ⟨created_at, hsca, fromisoformat_isoformat _ hca⟩
    · exact Or.inr ⟨updated_at, hsua, fromisoformat_isoformat _ hua⟩
    · cases hc : completed_at with
      | none => left; rw [hscat, hc]; rfl
      | some d =>
          exact Or.inr ⟨d, by rw [hscat, hc]; rfl,
            fromisoformat_isoformat _ (hcat d hc)⟩
  obtain ⟨D', heq, huntouched, hdt⟩ := load_job_char hget hcanon
  refine ⟨D', heq, ?_⟩
  intro k
  by_cases hk : k ∈ datetimeKeys
  · rcases hdt k hk with ⟨h1, h2⟩ | ⟨d, h1, h2, h3⟩
    · rw [h2]
      rw [getv_serializeDict] at h1
      exact (Option.map_eq_none'.mp h1).symm
    · simp only [datetimeKeys, List.mem_cons, List.not_mem_nil, or_false] at hk
      rcases hk with rfl | rfl | rfl
      · rw [hsca] at h1
        have hiso : isoformat created_at = isoformat d := by
          simpa using h1
        have hd : d = created_at := by
          have h4 := congrArg fromisoformat hiso
          rw [fromisoformat_isoformat _ hca, h3] at h4
          injection h4 with h4
          exact h4.symm
        rw [h2, hd, g4]
      · rw [hsua] at h1
        have hiso : isoformat updated_at = isoformat d := by
          simpa using h1
        have hd : d = updated_at := by
          have h4 := congrArg fromisoformat hiso
          rw [fromisoformat_isoformat _ hua, h3] at h4
          injection h4 with h4
          exact h4.symm
        rw [h2, hd, g5]
      · rw [hscat] at h1
        cases hc : completed_at with
        | none => rw [hc] at h1; exact absurd h1 (by simp)
        | some dd =>
            rw [hc] at h1
            have hiso : isoformat dd = isoformat d := by
              simpa using h1
            have hd : d = dd := by
              have h4 := congrArg fromisoformat hiso
              rw [fromisoformat_isoformat _ (hcat dd hc), h3] at h4
              injection h4 with h4
              exact h4.symm
            rw [h2, hd, g9, hc]
            rfl
  · rw [huntouched k hk, getv_serializeDict]
    have hk3 : k ≠ "created_at" ∧ k ≠ "updated_at" ∧ k ≠ "completed_at" := by
      simp only [datetimeKeys, List.mem_cons, List.not_mem_nil, or_false] at hk
      push_neg at hk
      exact hk
    by_cases e1 : k = "job_id"
    · subst e1; rw [g1]; rfl
    by_cases e2 : k = "status"
    · subst e2; rw [g2]; rfl
    by_cases e3 : k = "message"
    · subst e3; rw [g3]; rfl
    by_cases e6 : k = "pgn_file_path"
    · subst e6; rw [g6]; rfl
    by_cases e7 : k = "results"
    · subst e7; rw [g7]; cases results <;> rfl
    by_cases e8 : k = "error"
    · subst e8; rw [g8]; cases error <;> rfl
    by_cases e10 : k = "processing_time"
    · subst e10; rw [g10]; cases processing_time <;> rfl
    rw [jobDict_other job_id st message created_at updated_at pgn_file_path
      results error completed_at processing_time e1 e2 e3 hk3.1 hk3.2.1 e6 e7 e8
      hk3.2.2 e10]
    rfl

/-- Witness for C2 at a concrete record exercising all four optional
fields (a leap-day completion timestamp included). -/
theorem save_load_roundtrip_witness :
    DT.Valid ⟨2024, 1, 2, 3, 4, 5, 6⟩ ∧ DT.Valid ⟨2024, 1, 2, 3, 4, 5, 7⟩ ∧
    (∃ D', load_job (save_job [] "a"
        (jobDict "a" .completed "done" ⟨2024, 1, 2, 3, 4, 5, 6⟩
          ⟨2024, 1, 2, 3, 4, 5, 7⟩ "p.pgn" (some 42) none
          (some ⟨2024, 2, 29, 0, 0, 0, 0⟩) (some (5 / 2)))) "a" = .ok (some D') ∧
      ∀ k, getv D' k = getv (jobDict "a" .completed "done" ⟨2024, 1, 2, 3, 4, 5, 6⟩
        ⟨2024, 1, 2, 3, 4, 5, 7⟩ "p.pgn" (some 42) none
        (some ⟨2024, 2, 29, 0, 0, 0, 0⟩) (some (5 / 2))) k) :=
  ⟨by decide, by decide,
    save_load_roundtrip [] "a" "done" "p.pgn" .completed ⟨2024, 1, 2, 3, 4, 5, 6⟩
      ⟨2024, 1, 2, 3, 4, 5, 7⟩ (some 42) none (some ⟨2024, 2, 29, 0, 0, 0, 0⟩)
      (some (5 / 2)) (by decide) (by decide)
      (fun d hd => by injection hd with h; rw [← h]; decide)⟩

/-! ### Claims C6, C8, C9, C10: the store interface -/

/-- C6.  Calling `update_job_status` for an id with no stored record (for
example after a racing delete) is a non-fatal no-op: it raises no error,
creates no record, and returns the store exactly as it was — in particular a
job deleted while Processing is never resurrected by the dispatcher's
terminal update, which hits this branch. -/
theorem update_missing_noop (fs : FS) (now : DT) (job_id : String)
    (status : JobStatus) (message : String) (kwargs : List (String × PyVal))
    (habs : getv fs (get_job_file_path job_id) = none) :
    update_job_status fs now job_id status message kwargs = .ok fs :=
  update_job_status_of_absent habs now status message kwargs

theorem update_missing_noop_witness :
    getv ([] : FS) (get_job_file_path "a") = none ∧
    update_job_status [] ⟨2024, 1, 2, 3, 4, 5, 6⟩ "a" .failed "boom"
      [("error", .pstr "boom")] = .ok [] :=
  ⟨rfl, update_missing_noop [] ⟨2024, 1, 2, 3, 4, 5, 6⟩ "a" .failed "boom"
    [("error", .pstr "boom")] rfl⟩

/-- C8.  `update_job_status` is a read-modify-write: for an existing record,
every field the call did not supply (anything other than `status`,
`message`, the refreshed `updated_at`, and the keyword arguments) is carried
into the new record unchanged in value and in presence, and only this job's
file changes. -/
theorem update_preserves_other_fields (fs : FS) (now : DT) (job_id : String)
    (status : JobStatus) (message : String) (kwargs : List (String × PyVal))
    (D : Dict) (hfs : getv fs (get_job_file_path job_id) = some D)
    (hok : StoredOK D) (k : String)
    (hk : k ∉ "status" :: "message" :: "updated_at" :: kwargs.map Prod.fst) :
    ∃ Dnew, update_job_status fs now job_id status message kwargs
        = .ok (setv fs (get_job_file_path job_id) Dnew) ∧
      getv Dnew k = getv D k := by
  obtain ⟨Dnew, heq, huntouched, _, _, _, _, _⟩ :=
    update_job_status_char hfs hok now status message kwargs
  exact ⟨Dnew, heq, huntouched k hk⟩

theorem update_preserves_other_fields_witness :
    getv (save_job [] "a" (initialDict "a" ⟨2024, 1, 2, 3, 4, 5, 6⟩ "p.pgn"))
        (get_job_file_path "a")
      = some (serializeDict (initialDict "a" ⟨2024, 1, 2, 3, 4, 5, 6⟩ "p.pgn")) ∧
    StoredOK (serializeDict (initialDict "a" ⟨2024, 1, 2, 3, 4, 5, 6⟩ "p.pgn")) ∧
    "created_at" ∉ "status" :: "message" :: "updated_at" ::
      ([("error", PyVal.pstr "boom")]).map Prod.fst ∧
    (∃ Dnew, update_job_status
        (save_job [] "a" (initialDict "a" ⟨2024, 1, 2, 3, 4, 5, 6⟩ "p.pgn"))
        ⟨2024, 1, 2, 3, 4, 5, 7⟩ "a" .failed "failed" [("error", PyVal.pstr "boom")]
        = .ok (setv (save_job [] "a" (initialDict "a" ⟨2024, 1, 2, 3, 4, 5, 6⟩ "p.pgn"))
            (get_job_file_path "a") Dnew) ∧
      getv Dnew "created_at"
        = getv (serializeDict (initialDict "a" ⟨2024, 1, 2, 3, 4, 5, 6⟩ "p.pgn"))
            "created_at") :=
  ⟨by decide, by decide, by decide,
    update_preserves_other_fields
      (save_job [] "a" (initialDict "a" ⟨2024, 1, 2, 3, 4, 5, 6⟩ "p.pgn"))
      ⟨2024, 1, 2, 3, 4, 5, 7⟩ "a" .failed "failed" [("error", PyVal.pstr "boom")]
      (serializeDict (initialDict "a" ⟨2024, 1, 2, 3, 4, 5, 6⟩ "p.pgn"))
      (by decide) (by decide) "created_at" (by decide)⟩

lemma delete_job_file_present {fs : FS} {job_id : String} {D : Dict}
    (hfs : getv fs (get_job_file_path job_id) = some D) :
    delete_job_file fs job_id = (delv fs (get_job_file_path job_id), true) := by
  rw [delete_job_file, hfs]
  rfl

/-- C9.  The delete endpoint is idempotent at the interface: deleting an id
with no stored record returns `NotFound` and leaves everything unchanged;
deleting a stored id succeeds, removes the record, and a second delete of
the same id returns `NotFound`. -/
theorem delete_idempotent (fs : FS) (tmp : List String) (job_id : String) :
    (getv fs (get_job_file_path job_id) = none →
      delete_job fs tmp job_id = .ok (fs, tmp, .notFound)) ∧
    (∀ D, getv fs (get_job_file_path job_id) = some D →
      (∀ k ∈ datetimeKeys, CanonAt D k) →
      ∃ tmp', delete_job fs tmp job_id
          = .ok (delv fs (get_job_file_path job_id), tmp', .deleted) ∧
        delete_job (delv fs (get_job_file_path job_id)) tmp' job_id
          = .ok (delv fs (get_job_file_path job_id), tmp', .notFound)) := by
  constructor
  · intro habs
    rw [delete_job, load_job_of_absent habs]
  · intro D hfs hcanon
    obtain ⟨D', heq, _, _⟩ := load_job_char hfs hcanon
    refine ⟨tmpAfterDelete D' tmp, ?_, ?_⟩
    · rw [delete_job, heq, delete_job_file_present hfs]
    · rw [delete_job,
        load_job_of_absent (getv_delv_self fs (get_job_file_path job_id))]

theorem delete_idempotent_witness :
    getv (save_job [] "a" (initialDict "a" ⟨2024, 1, 2, 3, 4, 5, 6⟩ "p.pgn"))
        (get_job_file_path "a")
      = some (serializeDict (initialDict "a" ⟨2024, 1, 2, 3, 4, 5, 6⟩ "p.pgn")) ∧
    getv ([] : FS) (get_job_file_path "b") = none ∧
    (delete_job [] ["p.pgn"] "b" = .ok ([], ["p.pgn"], .notFound)) ∧
    (∃ tmp', delete_job (save_job [] "a" (initialDict "a" ⟨2024, 1, 2, 3, 4, 5, 6⟩
          "p.pgn")) ["p.pgn"] "a"
        = .ok (delv (save_job [] "a" (initialDict "a" ⟨2024, 1, 2, 3, 4, 5, 6⟩
            "p.pgn")) (get_job_file_path "a"), tmp', .deleted) ∧
      delete_job (delv (save_job [] "a" (initialDict "a" ⟨2024, 1, 2, 3, 4, 5, 6⟩
          "p.pgn")) (get_job_file_path "a")) tmp' "a"
        = .ok (delv (save_job [] "a" (initialDict "a" ⟨2024, 1, 2, 3, 4, 5, 6⟩
            "p.pgn")) (get_job_file_path "a"), tmp', .notFound)) :=
  ⟨by decide, rfl,
    (delete_idempotent [] ["p.pgn"] "b").1 rfl,
    (delete_idempotent
      (save_job [] "a" (initialDict "a" ⟨2024, 1, 2, 3, 4, 5, 6⟩ "p.pgn"))
      ["p.pgn"] "a").2
      (serializeDict (initialDict "a" ⟨2024, 1, 2, 3, 4, 5, 6⟩ "p.pgn"))
      (by decide)
      (fun k hk => storedOK_canonAt (by decide) hk)⟩

/-- C10.  Distinct job ids map to distinct store paths, so every store
operation on one id (`save_job`, `update_job_status`, `delete_job_file`)
leaves the stored record of any other id entirely unchanged. -/
theorem store_isolation (a b : String) (hab : a ≠ b) :
    get_job_file_path a ≠ get_job_file_path b ∧
    (∀ (fs : FS) (D : Dict),
      getv (save_job fs a D) (get_job_file_path b)
        = getv fs (get_job_file_path b)) ∧
    (∀ (fs : FS) (now : DT) (st : JobStatus) (msg : String)
        (kwargs : List (String × PyVal)) (fs' : FS),
      update_job_status fs now a st msg kwargs = .ok fs' →
      getv fs' (get_job_file_path b) = getv fs (get_job_file_path b)) ∧
    (∀ fs : FS,
      getv (delete_job_file fs a).1 (get_job_file_path b)
        = getv fs (get_job_file_path b)) := by
  have hpne : get_job_file_path b ≠ get_job_file_path a := path_ne (Ne.symm hab)
  refine ⟨path_ne hab, ?_, ?_, ?_⟩
  · intro fs D
    rw [save_job]
    exact getv_setv_ne _ _ _ _ hpne
  · intro fs now st msg kwargs fs' hupd
    rw [update_job_status] at hupd
    cases hl : load_job fs a with
    | error e => rw [hl] at hupd; exact absurd hupd (by simp)
    | ok o =>
        rw [hl] at hupd
        cases o with
        | none =>
            injection hupd with h
            rw [← h]
        | some D =>
            injection hupd with h
            rw [← h, save_job]
            exact getv_setv_ne _ _ _ _ hpne
  · intro fs
    rw [delete_job_file]
    by_cases hex : (getv fs (get_job_file_path a)).isSome
    · rw [if_pos hex]
      exact getv_delv_ne _ _ _ hpne
    · rw [if_neg hex]

theorem store_isolation_witness :
    ("a" : String) ≠ "b" ∧
    (get_job_file_path "a" ≠ get_job_file_path "b" ∧
    (∀ (fs : FS) (D : Dict),
      getv (save_job fs "a" D) (get_job_file_path "b")
        = getv fs (get_job_file_path "b")) ∧
    (∀ (fs : FS) (now : DT) (st : JobStatus) (msg : String)
        (kwargs : List (String × PyVal)) (fs' : FS),
      update_job_status fs now "a" st msg kwargs = .ok fs' →
      getv fs' (get_job_file_path "b") = getv fs (get_job_file_path "b")) ∧
    (∀ fs : FS,
      getv (delete_job_file fs "a").1 (get_job_file_path "b")
        = getv fs (get_job_file_path "b"))) :=
  ⟨by decide, store_isolation "a" "b" (by decide)⟩

/-! ### Concrete example traces -/

/-- Example configuration: two workers, 1800-second timeout. -/
def cfg2 : Cfg := ⟨2, 1800⟩

def dt0 : DT := ⟨2024, 1, 2, 3, 4, 5, 6⟩

def dt1 : DT := ⟨2024, 1, 2, 3, 4, 6, 0⟩

def dt2 : DT := ⟨2024, 1, 2, 3, 5, 0, 0⟩

/-- Project the store out of a successful update. -/
def okFS : Except Unit FS → FS
  | .ok fs => fs
  | .error _ => []

def exS1 : MState :=
  { fs := save_job MState.init.fs "a" (initialDict "a" dt0 "pa.pgn"),
    tmp := "pa.pgn" :: MState.init.tmp,
    phase := setv MState.init.phase "a" .scheduled,
    pool := MState.init.pool,
    used := "a" :: MState.init.used }

lemma step_init_exS1 : Step cfg2 MState.init (.submit "a") exS1 :=
  Step.submit MState.init "a" "pa.pgn" dt0 (by decide) (by decide)

lemma reach_exS1 : Reachable cfg2 exS1 := .step .init step_init_exS1

def exS2fs : FS :=
  okFS (update_job_status exS1.fs dt1 "a" .processing "Processing PGN file..." [])

def exS2 : MState :=
  { exS1 with fs := exS2fs, phase := setv exS1.phase "a" (.marked dt0) }

lemma step_exS1_exS2 : Step cfg2 exS1 (.begin "a") exS2 :=
  Step.begin exS1 "a" dt0 dt1 (by decide) (by decide) (by decide) exS2fs (by rfl)

lemma reach_exS2 : Reachable cfg2 exS2 := .step reach_exS1 step_exS1_exS2

def exS3fs : FS :=
  okFS (update_job_status exS2.fs dt2 "a" .failed ("Analysis failed: " ++ "boom")
    [("error", .pstr ("Analysis failed: " ++ "boom"))])

def exS3 : MState :=
  { exS2 with
    fs := exS3fs, phase := setv exS2.phase "a" (.done none),
    pool := exS2.pool.erase "a" }

lemma step_exS2_exS3 : Step cfg2 exS2 (.finishCrash "a") exS3 :=
  Step.finishCrash exS2 "a" dt0 dt2 (by decide) "boom" (Or.inl (by decide))
    exS3fs (by rfl)

lemma reach_exS3 : Reachable cfg2 exS3 := .step reach_exS2 step_exS2_exS3

/-- The failed record of the example trace. -/
def exD3 : Dict :=
  match getv exS3.fs (get_job_file_path "a") with
  | some D => D
  | none => []

def exT3fs : FS :=
  okFS (update_job_status exS2.fs dt2 "a" .failed (timeoutMsg cfg2.timeoutSeconds)
    [("error", .pstr (timeoutMsg cfg2.timeoutSeconds))])

def exT3 : MState :=
  { exS2 with fs := exT3fs, phase := setv exS2.phase "a" (.done none) }

/-- The timed-out record of the example trace. -/
def exDT3 : Dict :=
  match getv exT3.fs (get_job_file_path "a") with
  | some D => D
  | none => []

lemma step_exS2_exT3 : Step cfg2 exS2 (.finishTimeout "a") exT3 :=
  Step.finishTimeout exS2 "a" dt0 dt2 (by decide) (Or.inl (by decide))
    exT3fs (by rfl)

def exS4 : MState :=
  { fs := save_job exS2.fs "b" (initialDict "b" dt1 "pb.pgn"),
    tmp := "pb.pgn" :: exS2.tmp,
    phase := setv exS2.phase "b" .scheduled,
    pool := exS2.pool,
    used := "b" :: exS2.used }

lemma step_exS2_exS4 : Step cfg2 exS2 (.submit "b") exS4 :=
  Step.submit exS2 "b" "pb.pgn" dt1 (by decide) (by decide)

def exS5fs : FS :=
  okFS (update_job_status exS4.fs dt1 "b" .processing "Processing PGN file..." [])

def exS5 : MState :=
  { exS4 with fs := exS5fs, phase := setv exS4.phase "b" (.marked dt1) }

lemma step_exS4_exS5 : Step cfg2 exS4 (.begin "b") exS5 :=
  Step.begin exS4 "b" dt1 dt1 (by decide) (by decide) (by decide) exS5fs (by rfl)

def exS6 : MState :=
  { fs := save_job exS5.fs "c" (initialDict "c" dt2 "pc.pgn"),
    tmp := "pc.pgn" :: exS5.tmp,
    phase := setv exS5.phase "c" .scheduled,
    pool := exS5.pool,
    used := "c" :: exS5.used }

lemma step_exS5_exS6 : Step cfg2 exS5 (.submit "c") exS6 :=
  Step.submit exS5 "c" "pc.pgn" dt2 (by decide) (by decide)

def exS7fs : FS :=
  okFS (update_job_status exS6.fs dt2 "c" .processing "Processing PGN file..." [])

def exS7 : MState :=
  { exS6 with fs := exS7fs, phase := setv exS6.phase "c" (.marked dt2) }

lemma step_exS6_exS7 : Step cfg2 exS6 (.begin "c") exS7 :=
  Step.begin exS6 "c" dt2 dt2 (by decide) (by decide) (by decide) exS7fs (by rfl)

lemma reach_exS7 : Reachable cfg2 exS7 :=
  .step (.step (.step (.step reach_exS2 step_exS2_exS4) step_exS4_exS5)
    step_exS5_exS6) step_exS6_exS7

/-! ### Claims C1, C4, C5, C7: lifecycle fields, exclusivity, the pool bound,
and timeouts -/

lemma statusIs_inj {D : Dict} {a b : JobStatus}
    (ha : statusIs D a) (hb : statusIs D b) : a = b := by
  rw [statusIs] at ha hb
  rw [ha] at hb
  injection hb with h
  injection h with h
  revert h
  cases a <;> cases b <;> decide

/-- C1 as stated is false: a job that reaches Failed (here via a raised
error) has neither `completed_at` nor `processing_time` set — `process_job`
passes those keyword arguments only on the Completed branch. -/
theorem c1_terminal_sets_timing_counterexample :
    ¬ (∀ (cfg : Cfg) (s : MState), Reachable cfg s → ∀ (id : String) (D : Dict),
        getv s.fs (get_job_file_path id) = some D →
        (statusIs D .completed ∨ statusIs D .failed) →
        (getv D "completed_at").isSome ∧ (getv D "processing_time").isSome) := by
  intro h
  have hc := h cfg2 exS3 reach_exS3 "a" exD3 (by rfl) (Or.inr (by decide))
  exact absurd hc (by decide)

/-- C1 (amended).  Only the transition into Completed sets `completed_at`
and `processing_time`: for a Completed record they hold the completion
instant and `total_seconds` of the wall-clock interval from the
`process_job` start instant to the completion instant (the two
`datetime.now()` values recorded in the dispatcher phase); every Failed
record (error, crash, or timeout) and every non-terminal record has both
fields absent. -/
theorem c1_timing_fields_amended (cfg : Cfg) {s : MState} (hr : Reachable cfg s)
    (id : String) (D : Dict)
    (hD : getv s.fs (get_job_file_path id) = some D) :
    (statusIs D .completed →
      ∃ a b, getv s.phase id = some (.done (some (a, b))) ∧
        getv D "completed_at" = some (.pstr (isoformat b)) ∧
        getv D "processing_time" = some (.pnum (totalSeconds a b))) ∧
    (statusIs D .failed →
      getv D "completed_at" = none ∧ getv D "processing_time" = none) ∧
    ((statusIs D .pending ∨ statusIs D .processing) →
      getv D "completed_at" = none ∧ getv D "processing_time" = none) := by
  obtain ⟨hu, hok, st, hst, hphst, hnont, hcomp, hfail⟩ :=
    (inv_reachable hr).2 id D hD
  refine ⟨?_, ?_, ?_⟩
  · intro hc
    have : st = .completed := statusIs_inj hst hc
    subst this
    obtain ⟨_, _, a, b, hphv, hca, hpt⟩ := hcomp rfl
    exact ⟨a, b, hphv, hca, hpt⟩
  · intro hf
    have : st = .failed := statusIs_inj hst hf
    subst this
    obtain ⟨_, _, hca, hpt⟩ := hfail rfl
    exact ⟨hca, hpt⟩
  · intro hnt
    have : st = .pending ∨ st = .processing := by
      rcases hnt with h | h
      · exact Or.inl (statusIs_inj hst h)
      · exact Or.inr (statusIs_inj hst h)
    obtain ⟨_, _, hca, hpt⟩ := hnont this
    exact ⟨hca, hpt⟩

theorem c1_timing_fields_amended_witness :
    getv exS3.fs (get_job_file_path "a") = some exD3 ∧
    statusIs exD3 .failed ∧
    ((statusIs exD3 .completed →
      ∃ a b, getv exS3.phase "a" = some (.done (some (a, b))) ∧
        getv exD3 "completed_at" = some (.pstr (isoformat b)) ∧
        getv exD3 "processing_time" = some (.pnum (totalSeconds a b))) ∧
    (statusIs exD3 .failed →
      getv exD3 "completed_at" = none ∧ getv exD3 "processing_time" = none) ∧
    ((statusIs exD3 .pending ∨ statusIs exD3 .processing) →
      getv exD3 "completed_at" = none ∧ getv exD3 "processing_time" = none)) :=
  ⟨by rfl, by decide, c1_timing_fields_amended cfg2 reach_exS3 "a" exD3 (by rfl)⟩

/-- C4.  In every reachable state, `results` is present iff the status is
Completed, `error` is present iff the status is Failed, the two are never
both present, and while the status is Pending or Processing both are
absent. -/
theorem results_error_exclusive (cfg : Cfg) {s : MState} (hr : Reachable cfg s)
    (id : String) (D : Dict)
    (hD : getv s.fs (get_job_file_path id) = some D) :
    ((∃ v, getv D "results" = some v) ↔ statusIs D .completed) ∧
    ((∃ v, getv D "error" = some v) ↔ statusIs D .failed) ∧
    ¬ ((∃ v, getv D "results" = some v) ∧ (∃ v, getv D "error" = some v)) ∧
    ((statusIs D .pending ∨ statusIs D .processing) →
      getv D "results" = none ∧ getv D "error" = none) := by
  obtain ⟨hu, hok, st, hst, hphst, hnont, hcomp, hfail⟩ :=
    (inv_reachable hr).2 id D hD
  have main : (getv D "results" = none ∧ getv D "error" = none ∧
      st ≠ .completed ∧ st ≠ .failed) ∨
      ((∃ r, getv D "results" = some (.pjson r)) ∧ getv D "error" = none ∧
        st = .completed) ∨
      ((∃ e, getv D "error" = some (.pstr e)) ∧ getv D "results" = none ∧
        st = .failed) := by
    cases st with
    | pending =>
        obtain ⟨h1, h2, _, _⟩ := hnont (Or.inl rfl)
        exact Or.inl ⟨h1, h2, by decide, by decide⟩
    | processing =>
        obtain ⟨h1, h2, _, _⟩ := hnont (Or.inr rfl)
        exact Or.inl ⟨h1, h2, by decide, by decide⟩
    | completed =>
        obtain ⟨hr1, he1, _⟩ := hcomp rfl
        exact Or.inr (Or.inl ⟨hr1, he1, rfl⟩)
    | failed =>
        obtain ⟨he1, hr1, _, _⟩ := hfail rfl
        exact Or.inr (Or.inr ⟨he1, hr1, rfl⟩)
  rcases main with ⟨h1, h2, h3, h4⟩ | ⟨⟨r, h1⟩, h2, h3⟩ | ⟨⟨e, h1⟩, h2, h3⟩
  · refine ⟨?_, ?_, ?_, fun _ => ⟨h1, h2⟩⟩
    · constructor
      · intro ⟨v, hv⟩; rw [h1] at hv; exact absurd hv (by simp)
      · intro hc; exact absurd (statusIs_inj hst hc) h3
    · constructor
      · intro ⟨v, hv⟩; rw [h2] at hv; exact absurd hv (by simp)
      · intro hf; exact absurd (statusIs_inj hst hf) h4
    · intro ⟨⟨v, hv⟩, _⟩; rw [h1] at hv; exact absurd hv (by simp)
  · subst h3
    refine ⟨⟨fun _ => hst, fun _ => ⟨_, h1⟩⟩, ?_, ?_, ?_⟩
    · constructor
      · intro ⟨v, hv⟩; rw [h2] at hv; exact absurd hv (by simp)
      · intro hf; exact absurd (statusIs_inj hst hf) (by decide)
    · intro ⟨_, ⟨v, hv⟩⟩; rw [h2] at hv; exact absurd hv (by simp)
    · intro h
      rcases h with h | h <;>
        exact absurd (statusIs_inj hst h) (by decide)
  · subst h3
    refine ⟨?_, ⟨fun _ => hst, fun _ => ⟨_, h1⟩⟩, ?_, ?_⟩
    · constructor
      · intro ⟨v, hv⟩; rw [h2] at hv; exact absurd hv (by simp)
      · intro hc; exact absurd (statusIs_inj hst hc) (by decide)
    · intro ⟨⟨v, hv⟩, _⟩; rw [h2] at hv; exact absurd hv (by simp)
    · intro h
      rcases h with h | h <;>
        exact absurd (statusIs_inj hst h) (by decide)

theorem results_error_exclusive_witness :
    getv exS3.fs (get_job_file_path "a") = some exD3 ∧
    (((∃ v, getv exD3 "results" = some v) ↔ statusIs exD3 .completed) ∧
    ((∃ v, getv exD3 "error" = some v) ↔ statusIs exD3 .failed) ∧
    ¬ ((∃ v, getv exD3 "results" = some v) ∧ (∃ v, getv exD3 "error" = some v)) ∧
    ((statusIs exD3 .pending ∨ statusIs exD3 .processing) →
      getv exD3 "results" = none ∧ getv exD3 "error" = none)) :=
  ⟨by rfl, results_error_exclusive cfg2 reach_exS3 "a" exD3 (by rfl)⟩

/-- Number of records whose `status` field currently reads `"processing"`. -/
def countProcessing (fs : FS) : Nat :=
  fs.countP (fun kv => decide (getv kv.2 "status" = some (.pstr "processing")))

/-- C5 as stated is false: `process_job` marks a job Processing before a
pool slot is acquired, so with `maxConcurrentWorkers = 2`, submitting three
jobs back-to-back reaches a state with three records in status Processing
simultaneously. -/
theorem c5_processing_bound_counterexample :
    ¬ (∀ (cfg : Cfg) (s : MState), Reachable cfg s →
        countProcessing s.fs ≤ cfg.maxWorkers) := by
  intro h
  have hc := h cfg2 exS7 reach_exS7
  exact absurd hc (by decide)

/-- C5 (amended).  The concurrency bound holds for executions, not for the
Processing status: at no instant do more than `maxConcurrentWorkers` work
functions occupy Execution Pool workers simultaneously (the number of
records in status Processing is not so bounded, since the status is set
before a slot is acquired). -/
theorem c5_pool_occupancy_bounded (cfg : Cfg) {s : MState}
    (hr : Reachable cfg s) : s.pool.length ≤ cfg.maxWorkers :=
  (inv_reachable hr).1

theorem c5_pool_occupancy_bounded_witness :
    Reachable cfg2 exS7 ∧ exS7.pool.length ≤ cfg2.maxWorkers :=
  ⟨reach_exS7, c5_pool_occupancy_bounded cfg2 reach_exS7⟩

lemma timedOut_infix (n : Nat) :
    "timed out".data <:+: (timeoutMsg n).data := by
  refine ⟨"Analysis ".data, (" after " ++ toString n ++ " seconds").data, ?_⟩
  have h1 : (timeoutMsg n).data
      = "Analysis timed out after ".data ++ ((toString n).data ++ " seconds".data) := by
    simp [timeoutMsg, String.data_append, List.append_assoc]
  have h2 : (" after " ++ toString n ++ " seconds").data
      = " after ".data ++ ((toString n).data ++ " seconds".data) := by
    simp [String.data_append, List.append_assoc]
  rw [h2, h1,
    show ("Analysis timed out after ".data : List Char)
      = "Analysis ".data ++ "timed out".data ++ " after ".data from by decide]
  simp [List.append_assoc]

/-- C7.  When a job's execution exceeds the configured `job_timeout`,
the record `process_job` writes is Failed, its `error` field is exactly
`"Analysis timed out after {N} seconds"` with `N` the configured number of
seconds (so the stored message contains the text `"timed out"`), and
`results` is left absent. -/
theorem timeout_writes_failed (cfg : Cfg) {s s' : MState} {id : String}
    (hr : Reachable cfg s) (hstep : Step cfg s (.finishTimeout id) s')
    (D : Dict) (hD : getv s'.fs (get_job_file_path id) = some D) :
    statusIs D .failed ∧
    getv D "error" = some (.pstr (timeoutMsg cfg.timeoutSeconds)) ∧
    ("timed out".data <:+: (timeoutMsg cfg.timeoutSeconds).data) ∧
    getv D "results" = none := by
  obtain ⟨hpool, hids⟩ := inv_reachable hr
  cases hstep with
  | finishTimeout id t0 tu hvu hph fs' hupd =>
      cases hrec : jobRec s id with
      | none =>
          rw [jobRec] at hrec
          have hfs : fs' = s.fs := by
            have h0 := update_job_status_of_absent hrec tu .failed
              (timeoutMsg cfg.timeoutSeconds)
              [("error", .pstr (timeoutMsg cfg.timeoutSeconds))]
            rw [h0] at hupd
            injection hupd with h
            exact h.symm
          subst hfs
          simp only [jobRec] at hD
          rw [hrec] at hD
          exact absurd hD (by simp)
      | some D0 =>
          obtain ⟨hu, hok, st, hst, hphst, hnont, hcomp, hfail⟩ := hids id D0 hrec
          have hstp : st = .processing := by
            rcases hph with h | h <;> rw [h] at hphst <;> exact hphst
          subst hstp
          obtain ⟨Dnew, hfseq, hokN, hstN, heN, hrN, hcaN, hptN⟩ :=
            record_after_fail hrec hok (hnont (Or.inr rfl)) hvu hupd
          subst hfseq
          simp only [jobRec] at hD
          rw [getv_setv_self] at hD
          injection hD with hD
          subst hD
          exact ⟨hstN, heN, timedOut_infix _, hrN⟩

theorem timeout_writes_failed_witness :
    Reachable cfg2 exS2 ∧ Step cfg2 exS2 (.finishTimeout "a") exT3 ∧
    (statusIs exDT3 .failed ∧
     getv exDT3 "error" = some (.pstr (timeoutMsg cfg2.timeoutSeconds)) ∧
     ("timed out".data <:+: (timeoutMsg cfg2.timeoutSeconds).data) ∧
     getv exDT3 "results" = none) :=
  ⟨reach_exS2, step_exS2_exT3,
    timeout_writes_failed cfg2 reach_exS2 step_exS2_exT3 exDT3 (by rfl)⟩

/-! ### Claim C3: monotone status transitions and terminal stability -/

/-- Some stored record of this job currently shows status `a`. -/
def statusOf (s : MState) (id : String) (a : JobStatus) : Prop :=
  ∃ D, jobRec s id = some D ∧ statusIs D a

/-- The legal transitions of the lifecycle state machine:
Pending → Processing → (Completed | Failed). -/
def legalTrans : JobStatus → JobStatus → Bool
  | .pending, .processing => true
  | .processing, .completed => true
  | .processing, .failed => true
  | _, _ => false

lemma statusOf_carry {s s' : MState} {id : String}
    (hfs : jobRec s' id = jobRec s id) :
    (∀ a, statusOf s id a → statusOf s' id a) ∧
    (jobRec s id = none → jobRec s' id = none) :=
  ⟨fun a h => by obtain ⟨D, hD, hsa⟩ := h; exact ⟨D, by rw [hfs]; exact hD, hsa⟩,
   fun h => by rw [hfs]; exact h⟩

/-- C3.  Along every system event, a job's stored status either disappears
(the record was deleted), stays the same, or advances along the lifecycle
order Pending → Processing → exactly one of Completed/Failed; a record
created by an event carries status Pending.  Since no transition leaves
Completed or Failed, a terminal status observed via `GetStatus` never
changes on any subsequent read (the record can only remain as it is or be
deleted, in which case reads return NotFound rather than another status). -/
theorem status_monotone (cfg : Cfg) {s s' : MState} {l : Label}
    (hr : Reachable cfg s) (hstep : Step cfg s l s') (id : String) :
    (∀ a, statusOf s id a →
      jobRec s' id = none ∨ statusOf s' id a ∨
        ∃ b, statusOf s' id b ∧ legalTrans a b = true) ∧
    (jobRec s id = none →
      jobRec s' id = none ∨ statusOf s' id .pending) ∧
    (∀ a, (a = .completed ∨ a = .failed) → statusOf s id a →
      jobRec s' id = none ∨ statusOf s' id a) := by
  obtain ⟨hpool, hids⟩ := inv_reachable hr
  have main : (∀ a, statusOf s id a →
      jobRec s' id = none ∨ statusOf s' id a ∨
        ∃ b, statusOf s' id b ∧ legalTrans a b = true) ∧
      (jobRec s id = none →
        jobRec s' id = none ∨ statusOf s' id .pending) := by
    cases hstep with
    | submit id0 tmpPath t hv hfresh =>
        by_cases hid : id = id0
        · subst hid
          constructor
          · intro a ⟨D, hD, hsa⟩
            exact absurd ((hids id D hD).1) hfresh
          · intro _
            refine Or.inr ⟨serializeDict (initialDict id t tmpPath), ?_, ?_⟩
            · simp only [jobRec, save_job]
              exact getv_setv_self _ _ _
            · exact getv_initial_status id t tmpPath
        · have hfs : jobRec
              { fs := save_job s.fs id0 (initialDict id0 t tmpPath),
                tmp := tmpPath :: s.tmp, phase := setv s.phase id0 .scheduled,
                pool := s.pool, used := id0 :: s.used } id = jobRec s id := by
            simp only [jobRec, save_job]
            exact getv_setv_ne _ _ _ _ (path_ne hid)
          obtain ⟨hc1, hc2⟩ := statusOf_carry hfs
          exact ⟨fun a h => Or.inr (Or.inl (hc1 a h)), fun h => Or.inl (hc2 h)⟩
    | begin id0 t0 t1 hv0 hv1 hph fs' hupd =>
        cases hrec : jobRec s id0 with
        | none =>
            rw [jobRec] at hrec
            have hfs : fs' = s.fs := by
              have h0 := update_job_status_of_absent hrec t1 .processing
                "Processing PGN file..." []
              rw [h0] at hupd
              injection hupd with h
              exact h.symm
            subst hfs
            obtain ⟨hc1, hc2⟩ := statusOf_carry
              (show jobRec { s with phase := setv s.phase id0 (.marked t0) } id
                = jobRec s id from rfl)
            exact ⟨fun a h => Or.inr (Or.inl (hc1 a h)), fun h => Or.inl (hc2 h)⟩
        | some D0 =>
            obtain ⟨hu, hok, st, hst, hphst, hnont, hcomp, hfail⟩ := hids id0 D0 hrec
            rw [hph] at hphst
            have hstp : st = .pending := hphst
            subst hstp
            obtain ⟨Dnew, hfseq, hokN, hstN, hrN, heN, hcaN, hptN⟩ :=
              record_after_processing hrec hok (hnont (Or.inl rfl)) hv1 hupd
            subst hfseq
            by_cases hid : id = id0
            · subst hid
              constructor
              · intro a ⟨D, hD, hsa⟩
                rw [hrec] at hD
                injection hD with hD
                subst hD
                have ha : a = .pending := statusIs_inj hsa hst
                subst ha
                refine Or.inr (Or.inr ⟨.processing, ⟨Dnew, ?_, hstN⟩, by decide⟩)
                simp only [jobRec]
                exact getv_setv_self _ _ _
              · intro habs
                rw [habs] at hrec
                exact absurd hrec (by simp)
            · have hfs : jobRec
                  { s with
                      fs := setv s.fs (get_job_file_path id0) Dnew,
                      phase := setv s.phase id0 (.marked t0) } id = jobRec s id := by
                simp only [jobRec]
                exact getv_setv_ne _ _ _ _ (path_ne hid)
              obtain ⟨hc1, hc2⟩ := statusOf_carry hfs
              exact ⟨fun a h => Or.inr (Or.inl (hc1 a h)), fun h => Or.inl (hc2 h)⟩
    | acquire id0 t0 hph hcap =>
        obtain ⟨hc1, hc2⟩ := statusOf_carry
          (show jobRec { s with
                           phase := setv s.phase id0 (.executing t0),
                           pool := id0 :: s.pool } id = jobRec s id from rfl)
        exact ⟨fun a h => Or.inr (Or.inl (hc1 a h)), fun h => Or.inl (hc2 h)⟩
    | finishSuccess id0 t0 t tu hvt hvu r hph fs' hupd =>
        cases hrec : jobRec s id0 with
        | none =>
            rw [jobRec] at hrec
            have hfs : fs' = s.fs := by
              have h0 := update_job_status_of_absent hrec tu .completed
                "Analysis completed successfully"
                [("results", .pjson r), ("completed_at", .pdt t),
                 ("processing_time", .pnum (totalSeconds t0 t))]
              rw [h0] at hupd
              injection hupd with h
              exact h.symm
            subst hfs
            obtain ⟨hc1, hc2⟩ := statusOf_carry
              (show jobRec { s with
                  phase := setv s.phase id0 (.done (some (t0, t))),
                  pool := s.pool.erase id0 } id = jobRec s id from rfl)
            exact ⟨fun a h => Or.inr (Or.inl (hc1 a h)), fun h => Or.inl (hc2 h)⟩
        | some D0 =>
            obtain ⟨hu, hok, st, hst, hphst, hnont, hcomp, hfail⟩ := hids id0 D0 hrec
            rw [hph] at hphst
            have hstp : st = .processing := hphst
            subst hstp
            obtain ⟨Dnew, hfseq, hokN, hstN, hrN, heN, hcaN, hptN⟩ :=
              record_after_success hrec hok (hnont (Or.inr rfl)) hvt hvu hupd
            subst hfseq
            by_cases hid : id = id0
            · subst hid
              constructor
              · intro a ⟨D, hD, hsa⟩
                rw [hrec] at hD
                injection hD with hD
                subst hD
                have ha : a = .processing := statusIs_inj hsa hst
                subst ha
                refine Or.inr (Or.inr ⟨.completed, ⟨Dnew, ?_, hstN⟩, by decide⟩)
                simp only [jobRec]
                exact getv_setv_self _ _ _
              · intro habs
                rw [habs] at hrec
                exact absurd hrec (by simp)
            · have hfs : jobRec
                  { s with
                      fs := setv s.fs (get_job_file_path id0) Dnew,
                      phase := setv s.phase id0 (.done (some (t0, t))),
                      pool := s.pool.erase id0 } id = jobRec s id := by
                simp only [jobRec]
                exact getv_setv_ne _ _ _ _ (path_ne hid)
              obtain ⟨hc1, hc2⟩ := statusOf_carry hfs
              exact ⟨fun a h => Or.inr (Or.inl (hc1 a h)), fun h => Or.inl (hc2 h)⟩
    | finishError id0 t0 tu hvu e hph fs' hupd =>
        cases hrec : jobRec s id0 with
        | none =>
            rw [jobRec] at hrec
            have hfs : fs' = s.fs := by
              have h0 := update_job_status_of_absent hrec tu .failed
                ("Analysis failed: " ++ e) [("error", .pstr e)]
              rw [h0] at hupd
              injection hupd with h
              exact h.symm
            subst hfs
            obtain ⟨hc1, hc2⟩ := statusOf_carry
              (show jobRec { s with
                               phase := setv s.phase id0 (.done none),
                               pool := s.pool.erase id0 } id = jobRec s id from rfl)
            exact ⟨fun a h => Or.inr (Or.inl (hc1 a h)), fun h => Or.inl (hc2 h)⟩
        | some D0 =>
            obtain ⟨hu, hok, st, hst, hphst, hnont, hcomp, hfail⟩ := hids id0 D0 hrec
            rw [hph] at hphst
            have hstp : st = .processing := hphst
            subst hstp
            obtain ⟨Dnew, hfseq, hokN, hstN, heN, hrN, hcaN, hptN⟩ :=
              record_after_fail hrec hok (hnont (Or.inr rfl)) hvu hupd
            subst hfseq
            by_cases hid : id = id0
            · subst hid
              constructor
              · intro a ⟨D, hD, hsa⟩
                rw [hrec] at hD
                injection hD with hD
                subst hD
                have ha : a = .processing := statusIs_inj hsa hst
                subst ha
                refine Or.inr (Or.inr ⟨.failed, ⟨Dnew, ?_, hstN⟩, by decide⟩)
                simp only [jobRec]
                exact getv_setv_self _ _ _
              · intro habs
                rw [habs] at hrec
                exact absurd hrec (by simp)
            · have hfs : jobRec
                  { s with
                      fs := setv s.fs (get_job_file_path id0) Dnew,
                      phase := setv s.phase id0 (.done none),
                      pool := s.pool.erase id0 } id = jobRec s id := by
                simp only [jobRec]
                exact getv_setv_ne _ _ _ _ (path_ne hid)
              obtain ⟨hc1, hc2⟩ := statusOf_carry hfs
              exact ⟨fun a h => Or.inr (Or.inl (hc1 a h)), fun h => Or.inl (hc2 h)⟩
    | finishCrash id0 t0 tu hvu e hph fs' hupd =>
        cases hrec : jobRec s id0 with
        | none =>
            rw [jobRec] at hrec
            have hfs : fs' = s.fs := by
              have h0 := update_job_status_of_absent hrec tu .failed
                ("Analysis failed: " ++ e)
                [("error", .pstr ("Analysis failed: " ++ e))]
              rw [h0] at hupd
              injection hupd with h
              exact h.symm
            subst hfs
            obtain ⟨hc1, hc2⟩ := statusOf_carry
              (show jobRec { s with
                               phase := setv s.phase id0 (.done none),
                               pool := s.pool.erase id0 } id = jobRec s id from rfl)
            exact ⟨fun a h => Or.inr (Or.inl (hc1 a h)), fun h => Or.inl (hc2 h)⟩
        | some D0 =>
            obtain ⟨hu, hok, st, hst, hphst, hnont, hcomp, hfail⟩ := hids id0 D0 hrec
            have hstp : st = .processing := by
              rcases hph with h | h <;> rw [h] at hphst <;> exact hphst
            subst hstp
            obtain ⟨Dnew, hfseq, hokN, hstN, heN, hrN, hcaN, hptN⟩ :=
              record_after_fail hrec hok (hnont (Or.inr rfl)) hvu hupd
            subst hfseq
            by_cases hid : id = id0
            · subst hid
              constructor
              · intro a ⟨D, hD, hsa⟩
                rw [hrec] at hD
                injection hD with hD
                subst hD
                have ha : a = .processing := statusIs_inj hsa hst
                subst ha
                refine Or.inr (Or.inr ⟨.failed, ⟨Dnew, ?_, hstN⟩, by decide⟩)
                simp only [jobRec]
                exact getv_setv_self _ _ _
              · intro habs
                rw [habs] at hrec
                exact absurd hrec (by simp)
            · have hfs : jobRec
                  { s with
                      fs := setv s.fs (get_job_file_path id0) Dnew,
                      phase := setv s.phase id0 (.done none),
                      pool := s.pool.erase id0 } id = jobRec s id := by
                simp only [jobRec]
                exact getv_setv_ne _ _ _ _ (path_ne hid)
              obtain ⟨hc1, hc2⟩ := statusOf_carry hfs
              exact ⟨fun a h => Or.inr (Or.inl (hc1 a h)), fun h => Or.inl (hc2 h)⟩
    | finishTimeout id0 t0 tu hvu hph fs' hupd =>
        cases hrec : jobRec s id0 with
        | none =>
            rw [jobRec] at hrec
            have hfs : fs' = s.fs := by
              have h0 := update_job_status_of_absent hrec tu .failed
                (timeoutMsg cfg.timeoutSeconds)
                [("error", .pstr (timeoutMsg cfg.timeoutSeconds))]
              rw [h0] at hupd
              injection hupd with h
              exact h.symm
            subst hfs
            obtain ⟨hc1, hc2⟩ := statusOf_carry
              (show jobRec { s with phase := setv s.phase id0 (.done none) } id
                = jobRec s id from rfl)
            exact ⟨fun a h => Or.inr (Or.inl (hc1 a h)), fun h => Or.inl (hc2 h)⟩
        | some D0 =>
            obtain ⟨hu, hok, st, hst, hphst, hnont, hcomp, hfail⟩ := hids id0 D0 hrec
            have hstp : st = .processing := by
              rcases hph with h | h <;> rw [h] at hphst <;> exact hphst
            subst hstp
            obtain ⟨Dnew, hfseq, hokN, hstN, heN, hrN, hcaN, hptN⟩ :=
              record_after_fail hrec hok (hnont (Or.inr rfl)) hvu hupd
            subst hfseq
            by_cases hid : id = id0
            · subst hid
              constructor
              · intro a ⟨D, hD, hsa⟩
                rw [hrec] at hD
                injection hD with hD
                subst hD
                have ha : a = .processing := statusIs_inj hsa hst
                subst ha
                refine Or.inr (Or.inr ⟨.failed, ⟨Dnew, ?_, hstN⟩, by decide⟩)
                simp only [jobRec]
                exact getv_setv_self _ _ _
              · intro habs
                rw [habs] at hrec
                exact absurd hrec (by simp)
            · have hfs : jobRec
                  { s with
                      fs := setv s.fs (get_job_file_path id0) Dnew,
                      phase := setv s.phase id0 (.done none) } id = jobRec s id := by
                simp only [jobRec]
                exact getv_setv_ne _ _ _ _ (path_ne hid)
              obtain ⟨hc1, hc2⟩ := statusOf_carry hfs
              exact ⟨fun a h => Or.inr (Or.inl (hc1 a h)), fun h => Or.inl (hc2 h)⟩
    | release id0 times hph hmem =>
        obtain ⟨hc1, hc2⟩ := statusOf_carry
          (show jobRec { s with pool := s.pool.erase id0 } id = jobRec s id from rfl)
        exact ⟨fun a h => Or.inr (Or.inl (hc1 a h)), fun h => Or.inl (hc2 h)⟩
    | deleteReq id0 fs' tmp' res hdel =>
        rcases delete_job_fs_char hdel with hfs | hfs
        · subst hfs
          obtain ⟨hc1, hc2⟩ := statusOf_carry
            (show jobRec { s with fs := s.fs, tmp := tmp' } id = jobRec s id from rfl)
          exact ⟨fun a h => Or.inr (Or.inl (hc1 a h)), fun h => Or.inl (hc2 h)⟩
        · subst hfs
          by_cases hid : id = id0
          · subst hid
            constructor
            · intro a _
              left
              simp only [jobRec]
              exact getv_delv_self _ _
            · intro _
              left
              simp only [jobRec]
              exact getv_delv_self _ _
          · have hfs2 : jobRec
                { s with fs := delv s.fs (get_job_file_path id0), tmp := tmp' } id
                  = jobRec s id := by
              simp only [jobRec]
              exact getv_delv_ne _ _ _ (path_ne hid)
            obtain ⟨hc1, hc2⟩ := statusOf_carry hfs2
            exact ⟨fun a h => Or.inr (Or.inl (hc1 a h)), fun h => Or.inl (hc2 h)⟩
  refine ⟨main.1, main.2, ?_⟩
  intro a hterm hsa
  rcases main.1 a hsa with h | h | ⟨b, hb, hl⟩
  · exact Or.inl h
  · exact Or.inr h
  · exfalso
    rcases hterm with rfl | rfl <;> cases b <;> exact absurd hl (by decide)

theorem status_monotone_witness :
    Reachable cfg2 exS2 ∧
    ((∀ a, statusOf exS2 "a" a →
      jobRec exS3 "a" = none ∨ statusOf exS3 "a" a ∨
        ∃ b, statusOf exS3 "a" b ∧ legalTrans a b = true) ∧
    (jobRec exS2 "a" = none →
      jobRec exS3 "a" = none ∨ statusOf exS3 "a" .pending) ∧
    (∀ a, (a = .completed ∨ a = .failed) → statusOf exS2 "a" a →
      jobRec exS3 "a" = none ∨ statusOf exS3 "a" a)) :=
  ⟨reach_exS2, status_monotone cfg2 reach_exS2 step_exS2_exS3 "a"⟩

end Charlie
